import Mathlib

/-!
# go-discovery: the web-server resolution engine of `pkg/collector/webserver.go`

A shallow embedding of the detectors of `pkg/collector/webserver.go`, of the
container detector of `pkg/collector/docker.go` and of the record types of
`pkg/model/types.go`.

* Go strings are Lean `String`s (sequences of Unicode code points); the text
  the program handles is taken to be valid UTF-8, so that a rune of the Go code
  is a `Char` here and offsets count characters.
* The outside world (executable lookup, commands, the filesystem, the
  platform's `path/filepath`) is a value of type `World`: a record of oracles.
  A probe is a function of its arguments: the world does not change while one
  detector runs.
* The logger is a write-only side channel and is left out.
-/

namespace Discovery

/-! ## The parts of Go's `unicode` and `strings` packages the source calls -/

/-- The predicate `unicode.IsSpace`: the Latin-1 spaces and the other code
points of the Unicode White_Space property. -/
def isSpace (c : Char) : Bool :=
  let n := c.toNat
  (9 ≤ n && n ≤ 13) || n == 32 || n == 0x85 || n == 0xA0 || n == 0x1680 ||
    (0x2000 ≤ n && n ≤ 0x200A) || n == 0x2028 || n == 0x2029 || n == 0x202F ||
    n == 0x205F || n == 0x3000

/-- Membership of a character in a cutset, as a boolean. -/
def inCutset (cutset : String) (c : Char) : Bool := cutset.data.contains c

/-- Go `strings.TrimSpace`: drop the leading and trailing white space. -/
def TrimSpace (s : String) : String :=
  ⟨(s.data.dropWhile isSpace).rdropWhile isSpace⟩

/-- Go `strings.HasPrefix`. -/
def HasPrefix (s pre : String) : Bool := pre.data.isPrefixOf s.data

/-- Go `strings.Trim`: drop the leading and trailing characters that are in
the cutset. -/
def Trim (s cutset : String) : String :=
  ⟨(s.data.dropWhile (inCutset cutset)).rdropWhile (inCutset cutset)⟩

/-- Go `strings.TrimRight`: drop the trailing characters that are in the
cutset. -/
def TrimRight (s cutset : String) : String :=
  ⟨s.data.rdropWhile (inCutset cutset)⟩

/-- The fields of a character list: the maximal runs of non-space characters. -/
def fieldsL : List Char → List (List Char)
  | [] => []
  | c :: cs =>
    if isSpace c then fieldsL cs
    else
      match cs with
      | [] => [[c]]
      | d :: _ =>
        if isSpace d then [c] :: fieldsL cs
        else
          match fieldsL cs with
          | [] => [[c]]
          | f :: fs => (c :: f) :: fs

/-- Go `strings.Fields`: split around each run of white space. -/
def Fields (s : String) : List String := (fieldsL s.data).map String.mk

/-- Split a character list at every occurrence of a separator character. -/
def splitL (sep : Char) : List Char → List (List Char)
  | [] => [[]]
  | c :: cs =>
    if c = sep then [] :: splitL sep cs
    else
      match splitL sep cs with
      | [] => [[c]]
      | l :: ls => (c :: l) :: ls

/-- Go `strings.Split(s, sep)` for a separator of one character (the source
splits at "\n" only). -/
def Split (s : String) (sep : Char) : List String := (splitL sep s.data).map String.mk

/-- Go `strings.SplitN(s, sep, 2)` for a separator of one character (the
source cuts at the first "=" only): the text before the first separator and
the text after it, or the whole string when there is no separator. -/
def SplitN2 (s : String) (sep : Char) : List String :=
  match s.data.dropWhile (fun c => c != sep) with
  | [] => [s]
  | _ :: rest => [⟨s.data.takeWhile (fun c => c != sep)⟩, ⟨rest⟩]

/-- Offset of the first occurrence of `sub` in a character list, counted from
`i`; `-1` when there is none. -/
def indexL (sub : List Char) : List Char → Nat → Int
  | [], i => if sub = [] then (i : Int) else -1
  | c :: cs, i => if sub.isPrefixOf (c :: cs) then (i : Int) else indexL sub cs (i + 1)

/-- Go `strings.Index`. -/
def Index (s sub : String) : Int := indexL sub.data s.data 0

/-- Go `strings.Contains`. -/
def Contains (s sub : String) : Bool := decide (0 ≤ Index s sub)

/-- The Go slice expression `s[i:]`. -/
def sliceFrom (s : String) (i : Nat) : String := ⟨s.data.drop i⟩

/-- The Go slice expression `s[i:j]`. -/
def slice (s : String) (i j : Nat) : String := ⟨(s.data.drop i).take (j - i)⟩

/-! ## `pkg/model/types.go` -/

/-- The record `model.WebServer`; the field `Type` is called `ServerType`. -/
structure WebServer where
  ServerType : String
  Status : String
  ConfigFile : String
  DocumentRoots : List String
  deriving DecidableEq, Repr

/-- The part of `model.DiscoveryReport` the web-server detectors touch. -/
structure DiscoveryReport where
  WebServers : List WebServer
  deriving DecidableEq, Repr

/-! ## The outside world -/

/-- The environment of one run: the platform and its path library, the
executable lookup, the commands and the filesystem. -/
structure World where
  /-- The constant `runtime.GOOS`. -/
  GOOS : String
  /-- Whether `exec.LookPath name` returns no error. -/
  LookPath : String → Bool
  /-- The call `exec.Command(name, args...).Output()`: the standard output when
  the error is nil. -/
  Output : String → List String → Option String
  /-- The bytes `exec.Command(name, args...).Output()` returns together with a
  non-nil error (read by callers that drop the error). -/
  OutputOnError : String → List String → String
  /-- The call `exec.Command(name, args...).CombinedOutput()`: the captured
  text, and whether the error is nil. -/
  CombinedOutput : String → List String → String × Bool
  /-- Whether `exec.Command(name, args...).Run()` returns no error. -/
  Run : String → List String → Bool
  /-- The call `os.Stat path`: when the error is nil, whether the path is a
  directory. -/
  Stat : String → Option Bool
  /-- Whether the error of a failing `os.Stat path` is one that `os.IsNotExist`
  accepts; read only where `Stat` gives no result. -/
  StatNotExist : String → Bool
  /-- The call `os.ReadFile path`: the content when the error is nil. -/
  ReadFile : String → Option String
  /-- The call `filepath.Glob pattern`: the matches when the error is nil. -/
  Glob : String → Option (List String)
  /-- The function `filepath.IsAbs`. -/
  IsAbs : String → Bool
  /-- The function `filepath.Join` of two elements. -/
  Join : String → String → String
  /-- The function `filepath.Dir`. -/
  Dir : String → String

/-- The same world with the content of one file replaced. -/
def World.withFile (w : World) (path content : String) : World :=
  { w with ReadFile := fun p => if p = path then some content else w.ReadFile p }

/-! ## `pkg/collector/webserver.go` -/

/-- The test `err == nil && check(string(output))` on the result of
`cmd.Output()`. -/
def outputOk (w : World) (name : String) (args : List String) (check : String → Bool) : Bool :=
  match w.Output name args with
  | some output => check output
  | none => false

/-- The function `getServiceStatus`: the platform's chain of status checks. -/
def getServiceStatus (w : World) (serviceName alternativeServiceName : String) : String :=
  if w.GOOS = "linux" then
    if outputOk w "systemctl" ["is-active", serviceName] (fun o => TrimSpace o == "active") then
      "Running"
    else if alternativeServiceName != "" &&
        outputOk w "systemctl" ["is-active", alternativeServiceName]
          (fun o => TrimSpace o == "active") then
      "Running"
    else if w.Run "service" [serviceName, "status"] then "Running"
    else if w.Run "pgrep" ["-x", serviceName] then "Running"
    else if alternativeServiceName != "" && w.Run "pgrep" ["-x", alternativeServiceName] then
      "Running"
    else "Installed but not running"
  else if w.GOOS = "darwin" then
    if outputOk w "launchctl" ["list"] (fun o => Contains o serviceName) then "Running"
    else if outputOk w "brew" ["services", "list"]
        (fun o => Contains o (serviceName ++ " started")) then
      "Running"
    else if w.Run "pgrep" ["-x", serviceName] then "Running"
    else "Installed but not running"
  else if w.GOOS = "windows" then
    if outputOk w "sc" ["query", serviceName] (fun o => Contains o "RUNNING") then "Running"
    else "Installed but not running"
  else "Unknown status"

/-- The function `findExistingFile`: the first listed path that `os.Stat`
accepts, or the empty string. -/
def findExistingFile (w : World) : List String → String
  | [] => ""
  | path :: rest => if (w.Stat path).isSome then path else findExistingFile w rest

/-- The loop of `extractValueFromApacheOutput` over the lines of the output:
the first line that holds `key="value"` at an offset above zero, with a value
of at least one character, gives the value. The key is ASCII, so its length
in bytes is its length in characters. -/
def extractValueFromLines (key : String) : List String → String
  | [] => ""
  | line :: rest =>
    if Contains line key then
      let start := Index line (key ++ "=\"")
      if 0 < start then
        let start := start.toNat + key.length + 2
        let end_ := Index (sliceFrom line start) "\""
        if 0 < end_ then slice line start (start + end_.toNat)
        else extractValueFromLines key rest
      else extractValueFromLines key rest
    else extractValueFromLines key rest

/-- The function `extractValueFromApacheOutput`. -/
def extractValueFromApacheOutput (output key : String) : String :=
  extractValueFromLines key (Split output '\n')

/-- The `apache` case of `getWebServerConfigFromCommand`: the loop over the
executable names, each run with `-V`. -/
def apacheConfigFromCommand (w : World) : List String → String
  | [] => ""
  | execName :: rest =>
    match w.Output execName ["-V"] with
    | some outputStr =>
      let configFile := extractValueFromApacheOutput outputStr "SERVER_CONFIG_FILE"
      let serverRoot := extractValueFromApacheOutput outputStr "HTTPD_ROOT"
      if configFile != "" then
        if !w.IsAbs configFile && serverRoot != "" then w.Join serverRoot configFile
        else configFile
      else apacheConfigFromCommand w rest
    | none => apacheConfigFromCommand w rest

/-- The `caddy` case of `getWebServerConfigFromCommand`: the loop over the
default locations, each validated by `caddy validate`. -/
def caddyConfigFromCommand (w : World) : List String → String
  | [] => ""
  | loc :: rest =>
    if w.Run "caddy" ["validate", "--adapter", "caddyfile", loc] then loc
    else caddyConfigFromCommand w rest

/-- The function `getWebServerConfigFromCommand`. -/
def getWebServerConfigFromCommand (w : World) (serverType : String) : String :=
  if serverType = "nginx" then
    let output := w.CombinedOutput "nginx" ["-t"]
    if output.2 || Contains output.1 "successful" then
      let outputStr := output.1
      let idx := Index outputStr "configuration file "
      if 0 < idx then
        let rest := sliceFrom outputStr (idx.toNat + "configuration file ".length)
        let endIdx := Index rest " "
        if 0 < endIdx then slice rest 0 endIdx.toNat else ""
      else ""
    else ""
  else if serverType = "apache" then
    apacheConfigFromCommand w ["apache2ctl", "httpd", "apache2"]
  else if serverType = "lighttpd" then
    if (w.Output "lighttpd" ["-p", "-f", "/etc/lighttpd/lighttpd.conf"]).isSome then
      "/etc/lighttpd/lighttpd.conf"
    else if (w.Output "lighttpd" ["-p", "-f", "/usr/local/etc/lighttpd/lighttpd.conf"]).isSome then
      "/usr/local/etc/lighttpd/lighttpd.conf"
    else ""
  else if serverType = "caddy" then
    if outputOk w "caddy" ["version"] (fun o => Contains o "v2") then
      caddyConfigFromCommand w ["/etc/caddy/Caddyfile", "/usr/local/etc/caddy/Caddyfile"]
    else ""
  else ""

/-- The body of the line loop of `extractApacheDocumentRoots`: what one line
appends to `docRoots`. -/
def apacheDocRootLine (line : String) : List String :=
  let line := TrimSpace line
  if HasPrefix line "DocumentRoot" then
    let parts := Fields line
    if 2 ≤ parts.length then [Trim (parts.getD 1 "") "\"'"] else []
  else []

/-- The function `extractApacheDocumentRoots`. -/
def extractApacheDocumentRoots (w : World) (configFile : String) : List String :=
  match w.ReadFile configFile with
  | none => []
  | some data =>
    (Split data '\n').foldl (fun docRoots line => docRoots ++ apacheDocRootLine line) []

/-- The body of the line loop of `extractApacheIncludeFiles`: what one line
appends to `includeFiles`. -/
def apacheIncludeLine (w : World) (configFile line : String) : List String :=
  let line := TrimSpace line
  if HasPrefix line "Include" || HasPrefix line "IncludeOptional" then
    let parts := Fields line
    if 2 ≤ parts.length then
      let includePattern := Trim (parts.getD 1 "") "\"'"
      let includePattern :=
        if !w.IsAbs includePattern then w.Join (w.Dir configFile) includePattern
        else includePattern
      if w.Stat includePattern = some true then
        match w.Glob (w.Join includePattern "*.conf") with
        | some files => files
        | none => []
      else
        match w.Glob includePattern with
        | some found => found
        | none => []
    else []
  else []

/-- The function `extractApacheIncludeFiles`. -/
def extractApacheIncludeFiles (w : World) (configFile : String) : List String :=
  match w.ReadFile configFile with
  | none => []
  | some data =>
    (Split data '\n').foldl
      (fun includeFiles line => includeFiles ++ apacheIncludeLine w configFile line) []

/-- The body of the line loop of `extractNginxDocumentRoots`. -/
def nginxDocRootLine (line : String) : List String :=
  let line := TrimSpace line
  if HasPrefix line "root" then
    let parts := Fields line
    if 2 ≤ parts.length then [TrimRight (Trim (parts.getD 1 "") "\"'") ";"] else []
  else []

/-- The function `extractNginxDocumentRoots`. -/
def extractNginxDocumentRoots (w : World) (configFile : String) : List String :=
  match w.ReadFile configFile with
  | none => []
  | some data =>
    (Split data '\n').foldl (fun docRoots line => docRoots ++ nginxDocRootLine line) []

/-- The body of the line loop of `extractNginxIncludeFiles`. -/
def nginxIncludeLine (w : World) (configFile line : String) : List String :=
  let line := TrimSpace line
  if HasPrefix line "include" then
    let parts := Fields line
    if 2 ≤ parts.length then
      let includePattern := TrimRight (Trim (parts.getD 1 "") "\"'") ";"
      let includePattern :=
        if !w.IsAbs includePattern then w.Join (w.Dir configFile) includePattern
        else includePattern
      match w.Glob includePattern with
      | some found => found
      | none => []
    else []
  else []

/-- The function `extractNginxIncludeFiles`. -/
def extractNginxIncludeFiles (w : World) (configFile : String) : List String :=
  match w.ReadFile configFile with
  | none => []
  | some data =>
    (Split data '\n').foldl
      (fun includeFiles line => includeFiles ++ nginxIncludeLine w configFile line) []

/-- The body of the line loop inside `detectLighttpd`. -/
def lighttpdDocRootLine (line : String) : List String :=
  let line := TrimSpace line
  if HasPrefix line "server.document-root" then
    let parts := SplitN2 line '='
    if parts.length = 2 then [Trim (TrimSpace (parts.getD 1 "")) "\"'"] else []
  else []

/-- The extraction block of `detectLighttpd`: the roots of the config file, none
when it cannot be read. -/
def lighttpdDocumentRoots (w : World) (configFile : String) : List String :=
  match w.ReadFile configFile with
  | none => []
  | some data =>
    (Split data '\n').foldl (fun docRoots line => docRoots ++ lighttpdDocRootLine line) []

/-- The body of the line loop inside `detectCaddy`. -/
def caddyDocRootLine (line : String) : List String :=
  let line := TrimSpace line
  if HasPrefix line "root" then
    let parts := Fields line
    if 2 ≤ parts.length then [parts.getD 1 ""] else []
  else []

/-- The extraction block of `detectCaddy`. -/
def caddyDocumentRoots (w : World) (configFile : String) : List String :=
  match w.ReadFile configFile with
  | none => []
  | some data =>
    (Split data '\n').foldl (fun docRoots line => docRoots ++ caddyDocRootLine line) []

/-- What a detector holds when it returns: its local variable `webServer`, and
whether it reached the `append` to `report.WebServers` (the early `return` of
the not-installed path does not). -/
structure DetectorExit where
  webServer : WebServer
  appended : Bool
  deriving DecidableEq, Repr

/-- The record every detector starts from. -/
def initialWebServer (serverType : String) : WebServer :=
  { ServerType := serverType, Status := "Not Installed", ConfigFile := "", DocumentRoots := [] }

/-- The config path of a detector: the command strategy, then the conventional
paths. -/
def locateConfig (w : World) (serverType : String) (configFilePaths : List String) : String :=
  let configFile := getWebServerConfigFromCommand w serverType
  if configFile = "" then findExistingFile w configFilePaths else configFile

/-- The body of `detectApache` up to its return. -/
def detectApacheExit (w : World) : DetectorExit :=
  let webServer := initialWebServer "Apache"
  let apacheInstalled := ["apache2", "httpd"].any w.LookPath
  if !apacheInstalled then ⟨webServer, false⟩
  else
    let webServer := { webServer with Status := getServiceStatus w "apache2" "httpd" }
    let configFilePaths :=
      ["/etc/apache2/apache2.conf", "/etc/apache2/httpd.conf", "/etc/httpd/conf/httpd.conf",
       "/usr/local/etc/apache24/httpd.conf", "/opt/homebrew/etc/httpd/httpd.conf",
       "/usr/local/etc/httpd/httpd.conf", "/etc/apache2/httpd.conf"]
    let webServer := { webServer with ConfigFile := locateConfig w "apache" configFilePaths }
    let webServer :=
      if webServer.ConfigFile != "" then
        let docRoots := extractApacheDocumentRoots w webServer.ConfigFile
        let webServer := { webServer with DocumentRoots := webServer.DocumentRoots ++ docRoots }
        let includeFiles := extractApacheIncludeFiles w webServer.ConfigFile
        includeFiles.foldl
          (fun ws includeFile =>
            { ws with DocumentRoots := ws.DocumentRoots ++ extractApacheDocumentRoots w includeFile })
          webServer
      else webServer
    ⟨webServer, true⟩

/-- The body of `detectNginx` up to its return. -/
def detectNginxExit (w : World) : DetectorExit :=
  let webServer := initialWebServer "Nginx"
  if !w.LookPath "nginx" then ⟨webServer, false⟩
  else
    let webServer := { webServer with Status := getServiceStatus w "nginx" "" }
    let configFilePaths :=
      ["/etc/nginx/nginx.conf", "/usr/local/etc/nginx/nginx.conf",
       "/opt/homebrew/etc/nginx/nginx.conf"]
    let webServer := { webServer with ConfigFile := locateConfig w "nginx" configFilePaths }
    let webServer :=
      if webServer.ConfigFile != "" then
        let docRoots := extractNginxDocumentRoots w webServer.ConfigFile
        let webServer := { webServer with DocumentRoots := webServer.DocumentRoots ++ docRoots }
        let includeFiles := extractNginxIncludeFiles w webServer.ConfigFile
        includeFiles.foldl
          (fun ws includeFile =>
            { ws with DocumentRoots := ws.DocumentRoots ++ extractNginxDocumentRoots w includeFile })
          webServer
      else webServer
    ⟨webServer, true⟩

/-- The body of `detectLighttpd` up to its return. -/
def detectLighttpdExit (w : World) : DetectorExit :=
  let webServer := initialWebServer "Lighttpd"
  if !w.LookPath "lighttpd" then ⟨webServer, false⟩
  else
    let webServer := { webServer with Status := getServiceStatus w "lighttpd" "" }
    let configFilePaths :=
      ["/etc/lighttpd/lighttpd.conf", "/usr/local/etc/lighttpd/lighttpd.conf"]
    let webServer := { webServer with ConfigFile := locateConfig w "lighttpd" configFilePaths }
    let webServer :=
      if webServer.ConfigFile != "" then
        { webServer with
          DocumentRoots := webServer.DocumentRoots ++ lighttpdDocumentRoots w webServer.ConfigFile }
      else webServer
    ⟨webServer, true⟩

/-- The body of `detectCaddy` up to its return. -/
def detectCaddyExit (w : World) : DetectorExit :=
  let webServer := initialWebServer "Caddy"
  if !w.LookPath "caddy" then ⟨webServer, false⟩
  else
    let webServer := { webServer with Status := getServiceStatus w "caddy" "" }
    let configFilePaths :=
      ["/etc/caddy/Caddyfile", "/usr/local/etc/caddy/Caddyfile", "/etc/caddy/caddy.conf"]
    let webServer := { webServer with ConfigFile := locateConfig w "caddy" configFilePaths }
    let webServer :=
      if webServer.ConfigFile != "" then
        { webServer with
          DocumentRoots := webServer.DocumentRoots ++ caddyDocumentRoots w webServer.ConfigFile }
      else webServer
    ⟨webServer, true⟩

/-- The effect of a detector on the report: the record is appended when the
detector reached its `append`, and the report is left as it was otherwise. -/
def commit (e : DetectorExit) (report : DiscoveryReport) : DiscoveryReport :=
  if e.appended then { report with WebServers := report.WebServers ++ [e.webServer] }
  else report

/-- The function `detectApache`. -/
def detectApache (w : World) (report : DiscoveryReport) : DiscoveryReport :=
  commit (detectApacheExit w) report

/-- The function `detectNginx`. -/
def detectNginx (w : World) (report : DiscoveryReport) : DiscoveryReport :=
  commit (detectNginxExit w) report

/-- The function `detectLighttpd`. -/
def detectLighttpd (w : World) (report : DiscoveryReport) : DiscoveryReport :=
  commit (detectLighttpdExit w) report

/-- The function `detectCaddy`. -/
def detectCaddy (w : World) (report : DiscoveryReport) : DiscoveryReport :=
  commit (detectCaddyExit w) report

/-- The function `DetectWebServers`. -/
def DetectWebServers (w : World) (report : DiscoveryReport) : DiscoveryReport :=
  detectCaddy w (detectLighttpd w (detectNginx w (detectApache w report)))

/-! ## Reading the include logic as the specification words it -/

/-- The lines of a config file, none when it cannot be read. -/
def configLines (w : World) (configFile : String) : List String :=
  match w.ReadFile configFile with
  | none => []
  | some data => Split data '\n'

/-- The matches of a glob pattern, none when the pattern is rejected. -/
def globFiles (w : World) (pattern : String) : List String := (w.Glob pattern).getD []

/-- The target of an include value: the value itself when absolute, and
otherwise the value joined to the directory of the including file. -/
def resolveInclude (w : World) (configFile value : String) : String :=
  if w.IsAbs value then value else w.Join (w.Dir configFile) value

/-- The value of an Apache include directive: the second field of a line that
starts with `Include`, without its surrounding quotes. -/
def apacheIncludeValue (line : String) : Option String :=
  if HasPrefix (TrimSpace line) "Include" && 2 ≤ (Fields (TrimSpace line)).length then
    some (Trim ((Fields (TrimSpace line)).getD 1 "") "\"'")
  else none

/-- The value of an Nginx include directive: the second field of a line that
starts with `include`, normalised as the source does. -/
def nginxIncludeValue (line : String) : Option String :=
  if HasPrefix (TrimSpace line) "include" && 2 ≤ (Fields (TrimSpace line)).length then
    some (TrimRight (Trim ((Fields (TrimSpace line)).getD 1 "") "\"'") ";")
  else none

/-- The pattern an Apache include target is globbed with: `target/*.conf` for
an existing directory, the target itself otherwise. -/
def apacheGlobPattern (w : World) (target : String) : String :=
  if w.Stat target = some true then w.Join target "*.conf" else target

/-- The config path `detectApache` settles on. -/
def apacheConfig (w : World) : String :=
  locateConfig w "apache"
    ["/etc/apache2/apache2.conf", "/etc/apache2/httpd.conf", "/etc/httpd/conf/httpd.conf",
     "/usr/local/etc/apache24/httpd.conf", "/opt/homebrew/etc/httpd/httpd.conf",
     "/usr/local/etc/httpd/httpd.conf", "/etc/apache2/httpd.conf"]

/-- The config path `detectNginx` settles on. -/
def nginxConfig (w : World) : String :=
  locateConfig w "nginx"
    ["/etc/nginx/nginx.conf", "/usr/local/etc/nginx/nginx.conf",
     "/opt/homebrew/etc/nginx/nginx.conf"]

/-! ## Go's `path/filepath` on Unix, for the concrete worlds -/

/-- The component pass of `filepath.Clean`: empty and `.` components go, a
`..` removes the component before it, or stays when there is none to remove
and the path is not rooted. -/
def cleanParts (rooted : Bool) : List (List Char) → List (List Char) → List (List Char)
  | [], out => out.reverse
  | c :: cs, out =>
    if c = [] || c = ['.'] then cleanParts rooted cs out
    else if c = ['.', '.'] then
      match out with
      | top :: rest =>
        if top = ['.', '.'] then cleanParts rooted cs (c :: out) else cleanParts rooted cs rest
      | [] => if rooted then cleanParts rooted cs [] else cleanParts rooted cs [c]
    else cleanParts rooted cs (c :: out)

/-- Unix `filepath.Clean`. -/
def unixClean (path : String) : String :=
  let rooted := HasPrefix path "/"
  let body := "/".intercalate ((cleanParts rooted (splitL '/' path.data) []).map String.mk)
  let out := if rooted then "/" ++ body else body
  if out = "" then "." else out

/-- Unix `filepath.IsAbs`. -/
def unixIsAbs (path : String) : Bool := HasPrefix path "/"

/-- Unix `filepath.Join` of two elements. -/
def unixJoin (a b : String) : String :=
  if a != "" then unixClean (a ++ "/" ++ b)
  else if b != "" then unixClean b
  else ""

/-- Unix `filepath.Dir`: the cleaned text up to the last separator. -/
def unixDir (path : String) : String :=
  unixClean ⟨path.data.rdropWhile (fun c => c != '/')⟩

/-- A Linux host on which every probe fails: nothing is installed, no command
runs, no file exists. -/
def bareWorld : World :=
  { GOOS := "linux"
    LookPath := fun _ => false
    Output := fun _ _ => none
    OutputOnError := fun _ _ => ""
    CombinedOutput := fun _ _ => ("", false)
    Run := fun _ _ => false
    Stat := fun _ => none
    StatNotExist := fun _ => true
    ReadFile := fun _ => none
    Glob := fun _ => some []
    IsAbs := unixIsAbs
    Join := unixJoin
    Dir := unixDir }

/-- Go `strings.Join(lines, "\n")`: the content of a file with the given
lines. -/
def joinLines : List String → String
  | [] => ""
  | [l] => l
  | l :: l2 :: ls => l ++ "\n" ++ joinLines (l2 :: ls)

/-- A Linux host that runs Nginx: `nginx -t` names the config file, which
holds one root and two include directives; one of the included files holds an
include directive of its own. -/
def nginxHost : World :=
  { bareWorld with
    LookPath := fun name => name == "nginx"
    Output := fun name args =>
      [(("systemctl", ["is-active", "nginx"]), "active\n")].lookup (name, args)
    CombinedOutput := fun name args =>
      if name == "nginx" && args == ["-t"] then
        ("nginx: the configuration file /etc/nginx/nginx.conf syntax is ok\n" ++
          "nginx: configuration file /etc/nginx/nginx.conf test is successful\n", true)
      else ("", false)
    Stat := fun path =>
      [("/etc/nginx/nginx.conf", false), ("/etc/nginx/conf.d", true),
       ("/etc/nginx/conf.d/a.conf", false), ("/etc/nginx/conf.d/b.conf", false),
       ("/etc/nginx/sites-enabled", true), ("/etc/nginx/sites-enabled/default", false),
       ("/etc/nginx/extra.conf", false)].lookup path
    ReadFile := fun path =>
      [("/etc/nginx/nginx.conf",
          "root /usr/share/nginx/html;\ninclude conf.d/*.conf;\n" ++
          "include /etc/nginx/sites-enabled/*;\n"),
       ("/etc/nginx/conf.d/a.conf", "root /srv/a;\n"),
       ("/etc/nginx/conf.d/b.conf", "root /srv/b;\ninclude /etc/nginx/extra.conf;\n"),
       ("/etc/nginx/sites-enabled/default", "root /var/www/html;"),
       ("/etc/nginx/extra.conf", "root /srv/extra;\n")].lookup path
    Glob := fun pattern =>
      some (([("/etc/nginx/conf.d/*.conf",
                ["/etc/nginx/conf.d/a.conf", "/etc/nginx/conf.d/b.conf"]),
              ("/etc/nginx/sites-enabled/*", ["/etc/nginx/sites-enabled/default"]),
              ("/etc/nginx/extra.conf", ["/etc/nginx/extra.conf"])].lookup pattern).getD []) }

/-- A Linux host that runs Apache: `apache2ctl -V` gives a config file relative
to the server root; the config includes a directory and a file. -/
def apacheHost : World :=
  { bareWorld with
    LookPath := fun name => name == "apache2"
    Output := fun name args =>
      [(("systemctl", ["is-active", "apache2"]), "active\n"),
       (("apache2ctl", ["-V"]),
          "Server version: Apache/2.4.57\n -D HTTPD_ROOT=\"/etc/apache2\"\n" ++
          " -D SERVER_CONFIG_FILE=\"apache2.conf\"\n")].lookup (name, args)
    Stat := fun path =>
      [("/etc/apache2/apache2.conf", false), ("/etc/apache2/sites-enabled", true),
       ("/etc/apache2/sites-enabled/000-default.conf", false),
       ("/etc/apache2/ports.conf", false)].lookup path
    ReadFile := fun path =>
      [("/etc/apache2/apache2.conf",
          "DocumentRoot \"/var/www/html\"\nIncludeOptional sites-enabled\n" ++
          "Include ports.conf\nInclude mods-enabled/*.load\n"),
       ("/etc/apache2/sites-enabled/000-default.conf",
          "<VirtualHost *:80>\n\tDocumentRoot /var/www/site\n</VirtualHost>\n"),
       ("/etc/apache2/ports.conf", "Listen 80\n")].lookup path
    Glob := fun pattern =>
      some (([("/etc/apache2/sites-enabled/*.conf",
                ["/etc/apache2/sites-enabled/000-default.conf"]),
              ("/etc/apache2/sites-enabled", ["/etc/apache2/sites-enabled"]),
              ("/etc/apache2/ports.conf", ["/etc/apache2/ports.conf"])].lookup pattern).getD []) }

/-- A Linux host whose Nginx config includes a directory by name. A pattern
without wildcard that names an existing path matches that path itself. -/
def nginxDirHost : World :=
  { bareWorld with
    LookPath := fun name => name == "nginx"
    Stat := fun path =>
      [("/etc/nginx/nginx.conf", false), ("/etc/nginx/conf.d", true),
       ("/etc/nginx/conf.d/site.conf", false)].lookup path
    ReadFile := fun path =>
      [("/etc/nginx/nginx.conf", "include /etc/nginx/conf.d;\n"),
       ("/etc/nginx/conf.d/site.conf", "root /srv/site;\n")].lookup path
    Glob := fun pattern =>
      some (([("/etc/nginx/conf.d", ["/etc/nginx/conf.d"]),
              ("/etc/nginx/conf.d/*.conf", ["/etc/nginx/conf.d/site.conf"])].lookup pattern).getD []) }

/-- A Linux host whose Nginx config files quote their values. -/
def quotedNginxHost : World :=
  { bareWorld with
    LookPath := fun name => name == "nginx"
    ReadFile := fun path =>
      [("/etc/nginx/nginx.conf", "root \"/var/www\";"),
       ("/etc/nginx/sites.conf", "include \"/var/www\";")].lookup path
    Glob := fun pattern => some (([("/var/www", ["/var/www"])].lookup pattern).getD []) }

/-- A Linux host that runs Lighttpd with a config whose document root has no
value. -/
def lighttpdHost : World :=
  { bareWorld with
    LookPath := fun name => name == "lighttpd"
    Output := fun name args =>
      [(("lighttpd", ["-p", "-f", "/etc/lighttpd/lighttpd.conf"]), "server.port = 80\n")].lookup
        (name, args)
    Stat := fun path => [("/etc/lighttpd/lighttpd.conf", false)].lookup path
    ReadFile := fun path =>
      [("/etc/lighttpd/lighttpd.conf", "server.document-root = \nserver.port = 80\n")].lookup
        path }

/-- The `systemctl is-active name` probe of `getServiceStatus`: the command
succeeds and its trimmed output is "active". -/
def systemctlActive (w : World) (name : String) : Prop :=
  ∃ output, w.Output "systemctl" ["is-active", name] = some output ∧ TrimSpace output = "active"

/-- The conventional config paths of each server kind, as listed in its
detector, keyed by the name the detector passes to
`getWebServerConfigFromCommand`. -/
def conventionPaths (serverType : String) : List String :=
  if serverType = "apache" then
    ["/etc/apache2/apache2.conf", "/etc/apache2/httpd.conf", "/etc/httpd/conf/httpd.conf",
     "/usr/local/etc/apache24/httpd.conf", "/opt/homebrew/etc/httpd/httpd.conf",
     "/usr/local/etc/httpd/httpd.conf", "/etc/apache2/httpd.conf"]
  else if serverType = "nginx" then
    ["/etc/nginx/nginx.conf", "/usr/local/etc/nginx/nginx.conf",
     "/opt/homebrew/etc/nginx/nginx.conf"]
  else if serverType = "lighttpd" then
    ["/etc/lighttpd/lighttpd.conf", "/usr/local/etc/lighttpd/lighttpd.conf"]
  else if serverType = "caddy" then
    ["/etc/caddy/Caddyfile", "/usr/local/etc/caddy/Caddyfile", "/etc/caddy/caddy.conf"]
  else []

/-- The records a run of `DetectWebServers` appends, in the order of the
calls. -/
def appendedRecords (w : World) : List WebServer :=
  ([detectApacheExit w, detectNginxExit w, detectLighttpdExit w, detectCaddyExit w].filter
    (fun e => e.appended)).map (fun e => e.webServer)

/-- A Linux host with the Caddy executable and nothing else: no command
answers and no config file exists. -/
def caddyOnlyHost : World :=
  { bareWorld with LookPath := fun name => name == "caddy" }

/-- A Linux host that runs Nginx where one of the three included files cannot
be read. -/
def brokenIncludeHost : World :=
  { bareWorld with
    LookPath := fun name => name == "nginx"
    Stat := fun path =>
      [("/etc/nginx/nginx.conf", false), ("/etc/nginx/sites/a.conf", false),
       ("/etc/nginx/sites/b.conf", false), ("/etc/nginx/sites/c.conf", false)].lookup path
    ReadFile := fun path =>
      [("/etc/nginx/nginx.conf", "root /srv/main;\ninclude sites/*.conf;\n"),
       ("/etc/nginx/sites/a.conf", "root /srv/a;\n"),
       ("/etc/nginx/sites/c.conf", "root /srv/c;\n")].lookup path
    Glob := fun pattern =>
      some (([("/etc/nginx/sites/*.conf",
                ["/etc/nginx/sites/a.conf", "/etc/nginx/sites/b.conf",
                 "/etc/nginx/sites/c.conf"])].lookup pattern).getD []) }

/-- A Linux host that runs Caddy v2 with a validated Caddyfile. -/
def caddyHost : World :=
  { bareWorld with
    LookPath := fun name => name == "caddy"
    Output := fun name args =>
      [(("caddy", ["version"]), "v2.7.6 h1:w0Nymb=\n")].lookup (name, args)
    Run := fun name args =>
      name == "caddy" && args == ["validate", "--adapter", "caddyfile", "/etc/caddy/Caddyfile"]
    Stat := fun path => [("/etc/caddy/Caddyfile", false)].lookup path
    ReadFile := fun path =>
      [("/etc/caddy/Caddyfile",
          "example.com\n\troot * /var/www\n\trootless /x\n\troot\n  root \"/srv/q\" extra\n" ++
          "file_server\n")].lookup path }

/-- The root a line of a Caddy config contributes, as the claim words it: the
second white-space separated field of a line whose trimmed text starts with
`root`, when there is one. -/
def caddyRootOfLine (line : String) : List String :=
  if HasPrefix (TrimSpace line) "root" then ((Fields line).get? 1).toList else []

/-- A host whose `nginx -t` prints the given text. -/
def nginxTestWorld (output : String) (ok : Bool) : World :=
  { bareWorld with
    LookPath := fun name => name == "nginx"
    CombinedOutput := fun name args =>
      if name == "nginx" && args == ["-t"] then (output, ok) else ("", false) }

/-- A host whose `apache2ctl -V` prints the given text. -/
def apacheVersionWorld (output : String) : World :=
  { bareWorld with
    LookPath := fun name => name == "apache2"
    Output := fun name args =>
      if name == "apache2ctl" && args == ["-V"] then some output else none }

/-! ## `pkg/collector/docker.go` -/

/-- Go `strings.TrimPrefix`. -/
def TrimPrefix (s pre : String) : String :=
  if HasPrefix s pre then ⟨s.data.drop pre.data.length⟩ else s

/-- The record `model.DockerContainer`. -/
structure DockerContainer where
  ContainerID : String
  Name : String
  Image : String
  Ports : List String
  Volumes : List String
  Networks : List String
  ManagedBy : String
  ComposeProject : String
  ComposeService : String
  ComposeFile : String
  deriving DecidableEq, Repr

/-- The bytes `cmd.Output()` returns, whatever its error. -/
def outputBytes (w : World) (name : String) (args : List String) : String :=
  match w.Output name args with
  | some output => output
  | none => w.OutputOnError name args

/-- The arguments of `docker inspect --format <format> <containerID>`. -/
def inspectArgs (format containerID : String) : List String :=
  ["inspect", "--format", format, containerID]

/-- The format that prints a label of the container. -/
def labelFormat (label : String) : String :=
  "\x7b\x7bindex .Config.Labels \"" ++ label ++ "\"\x7d\x7d"

/-- The format that prints the port mappings. -/
def portsFormat : String :=
  "\x7b\x7brange $p, $conf := .NetworkSettings.Ports\x7d\x7d \x7b\x7b$p\x7d\x7d->" ++
    "\x7b\x7b(index $conf 0).HostPort\x7d\x7d \x7b\x7bend\x7d\x7d"

/-- The format that prints the volume mappings. -/
def volumesFormat : String :=
  "\x7b\x7brange .Mounts\x7d\x7d\x7b\x7b.Source\x7d\x7d:\x7b\x7b.Destination\x7d\x7d " ++
    "\x7b\x7bend\x7d\x7d"

/-- The format that prints the network names. -/
def networksFormat : String :=
  "\x7b\x7brange $net, $conf := .NetworkSettings.Networks\x7d\x7d\x7b\x7b$net\x7d\x7d " ++
    "\x7b\x7bend\x7d\x7d"

/-- The first part of the loop body of `DetectDockerContainers`: the record
with its name, image, ports, volumes and networks. -/
def inspectBasics (w : World) (containerID : String) : DockerContainer :=
  let container : DockerContainer :=
    { ContainerID := containerID, Name := "", Image := "", Ports := [], Volumes := [],
      Networks := [], ManagedBy := "", ComposeProject := "", ComposeService := "",
      ComposeFile := "" }
  let container :=
    match w.Output "docker" (inspectArgs "\x7b\x7b.Name\x7d\x7d" containerID) with
    | some nameOutput => { container with Name := TrimSpace (TrimPrefix nameOutput "/") }
    | none => { container with Name := "unknown" }
  let container :=
    match w.Output "docker" (inspectArgs "\x7b\x7b.Config.Image\x7d\x7d" containerID) with
    | some imageOutput => { container with Image := TrimSpace imageOutput }
    | none => { container with Image := "unknown" }
  let container :=
    match w.Output "docker" (inspectArgs portsFormat containerID) with
    | some portsOutput =>
      { container with
        Ports := (Split (TrimSpace portsOutput) ' ').foldl
          (fun ports port => if port != "" then ports ++ [port] else ports) container.Ports }
    | none => container
  let container :=
    match w.Output "docker" (inspectArgs volumesFormat containerID) with
    | some volumesOutput => { container with Volumes := Fields (TrimSpace volumesOutput) }
    | none => container
  match w.Output "docker" (inspectArgs networksFormat containerID) with
  | some networksOutput => { container with Networks := Fields (TrimSpace networksOutput) }
  | none => container

/-- The second part of the loop body of `DetectDockerContainers`: the
management type and the compose fields. The errors of the two label commands
are dropped by the source, which reads their output in every case. -/
def inspectCompose (w : World) (containerID : String) (container : DockerContainer) :
    DockerContainer :=
  let composeProject :=
    TrimSpace (outputBytes w "docker"
      (inspectArgs (labelFormat "com.docker.compose.project") containerID))
  let composeService :=
    TrimSpace (outputBytes w "docker"
      (inspectArgs (labelFormat "com.docker.compose.service") containerID))
  if composeProject != "" || composeService != "" then
    let container :=
      { container with
        ManagedBy := "docker-compose", ComposeProject := composeProject,
        ComposeService := composeService }
    match w.Output "docker"
        (inspectArgs (labelFormat "com.docker.compose.project.working_dir") containerID) with
    | some composeFileOutput =>
      let workingDir := TrimSpace composeFileOutput
      let container := { container with ComposeFile := w.Join workingDir "docker-compose.yml" }
      if (w.Stat container.ComposeFile).isNone && w.StatNotExist container.ComposeFile then
        let yamlPath := w.Join workingDir "docker-compose.yaml"
        if (w.Stat yamlPath).isSome then { container with ComposeFile := yamlPath }
        else container
      else container
    | none => { container with ComposeFile := "unknown" }
  else
    { container with
      ManagedBy := "standalone", ComposeProject := "-", ComposeService := "-",
      ComposeFile := "-" }

/-- The loop body of `DetectDockerContainers`: the record of one container. -/
def inspectContainer (w : World) (containerID : String) : DockerContainer :=
  inspectCompose w containerID (inspectBasics w containerID)

/-- The function `DetectDockerContainers`, on the field `DockerContainers` of
the report, the only one it writes. The search for compose files that follows
the loop only writes to the log. -/
def DetectDockerContainers (w : World) (dockerContainers : List DockerContainer) :
    List DockerContainer :=
  if !w.LookPath "docker" then dockerContainers
  else if !w.Run "docker" ["info"] then dockerContainers
  else
    match w.Output "docker" ["ps", "--format", "\x7b\x7b.ID\x7d\x7d"] with
    | none => dockerContainers
    | some output =>
      (Fields output).foldl
        (fun containers containerID => containers ++ [inspectContainer w containerID])
        dockerContainers

/-- The compose project label of a container, as the detector reads it. -/
def composeProjectLabel (w : World) (containerID : String) : String :=
  TrimSpace (outputBytes w "docker"
    (inspectArgs (labelFormat "com.docker.compose.project") containerID))

/-- The compose service label of a container, as the detector reads it. -/
def composeServiceLabel (w : World) (containerID : String) : String :=
  TrimSpace (outputBytes w "docker"
    (inspectArgs (labelFormat "com.docker.compose.service") containerID))

/-- The outcome of the lookup of the compose working directory of a
container. -/
def workingDirLookup (w : World) (containerID : String) : Option String :=
  w.Output "docker"
    (inspectArgs (labelFormat "com.docker.compose.project.working_dir") containerID)

/-- A Linux host that runs Docker with three containers: one started alone,
one started by compose whose working directory is known, and one started by
compose whose working directory cannot be read. -/
def dockerHost : World :=
  { bareWorld with
    LookPath := fun name => name == "docker"
    Run := fun name args => name == "docker" && args == ["info"]
    Output := fun name args =>
      if name != "docker" then none
      else
        [(["ps", "--format", "\x7b\x7b.ID\x7d\x7d"], "aaa111\nbbb222\nccc333\n"),
         (inspectArgs "\x7b\x7b.Name\x7d\x7d" "aaa111", "/cache\n"),
         (inspectArgs "\x7b\x7b.Config.Image\x7d\x7d" "aaa111", "redis:7\n"),
         (inspectArgs portsFormat "aaa111", " 6379/tcp->6379 \n"),
         (inspectArgs (labelFormat "com.docker.compose.project") "aaa111", "\n"),
         (inspectArgs (labelFormat "com.docker.compose.service") "aaa111", "\n"),
         (inspectArgs "\x7b\x7b.Name\x7d\x7d" "bbb222", "/shop-web-1\n"),
         (inspectArgs (labelFormat "com.docker.compose.project") "bbb222", "shop\n"),
         (inspectArgs (labelFormat "com.docker.compose.service") "bbb222", "web\n"),
         (inspectArgs (labelFormat "com.docker.compose.project.working_dir") "bbb222",
            "/srv/shop\n"),
         (inspectArgs (labelFormat "com.docker.compose.project") "ccc333", "blog\n"),
         (inspectArgs (labelFormat "com.docker.compose.service") "ccc333", "db\n")].lookup args
    Stat := fun path => [("/srv/shop/docker-compose.yaml", false)].lookup path }

/-- A Linux host that runs Nginx where `nginx -t` fails and the second and the
third conventional config paths exist, the first does not. -/
def conventionNginxHost : World :=
  { bareWorld with
    LookPath := fun name => name == "nginx"
    Stat := fun path =>
      [("/usr/local/etc/nginx/nginx.conf", false),
       ("/opt/homebrew/etc/nginx/nginx.conf", false)].lookup path
    ReadFile := fun path =>
      [("/usr/local/etc/nginx/nginx.conf", "root /usr/local/www;\n"),
       ("/opt/homebrew/etc/nginx/nginx.conf", "root /opt/homebrew/var/www;\n")].lookup path }

/-- A Linux host that runs an Apache built under `/opt/apache`: `apache2ctl -V`
names its config file, while a config file at the first conventional path
exists too. -/
def customApacheHost : World :=
  { bareWorld with
    LookPath := fun name => name == "apache2"
    Output := fun name args =>
      [(("apache2ctl", ["-V"]),
          "Server version: Apache/2.4.57\n -D HTTPD_ROOT=\"/opt/apache\"\n" ++
          " -D SERVER_CONFIG_FILE=\"conf/httpd.conf\"\n")].lookup (name, args)
    Stat := fun path =>
      [("/etc/apache2/apache2.conf", false), ("/opt/apache/conf/httpd.conf", false)].lookup path
    ReadFile := fun path =>
      [("/etc/apache2/apache2.conf", "DocumentRoot /var/www/html\n"),
       ("/opt/apache/conf/httpd.conf", "DocumentRoot \"/opt/apache/htdocs\"\n")].lookup path }

/-- The compose file path of a compose-managed container whose working
directory was read: `docker-compose.yml` in that directory, or
`docker-compose.yaml` when the former does not exist and the latter does. -/
def composeFilePath (w : World) (workingDir : String) : String :=
  if (w.Stat (w.Join workingDir "docker-compose.yml")).isNone &&
      w.StatNotExist (w.Join workingDir "docker-compose.yml") &&
      (w.Stat (w.Join workingDir "docker-compose.yaml")).isSome then
    w.Join workingDir "docker-compose.yaml"
  else w.Join workingDir "docker-compose.yml"

/-- A Linux host that runs Docker with two compose-managed containers whose
compose file is not to be found: the working directory of the first holds no
compose file, the working directory label of the second is empty. -/
def composeMissingHost : World :=
  { bareWorld with
    LookPath := fun name => name == "docker"
    Run := fun name args => name == "docker" && args == ["info"]
    Output := fun name args =>
      if name != "docker" then none
      else
        [(["ps", "--format", "\x7b\x7b.ID\x7d\x7d"], "ddd444\neee555\n"),
         (inspectArgs (labelFormat "com.docker.compose.project") "ddd444", "blog\n"),
         (inspectArgs (labelFormat "com.docker.compose.service") "ddd444", "db\n"),
         (inspectArgs (labelFormat "com.docker.compose.project.working_dir") "ddd444",
            "/srv/blog\n"),
         (inspectArgs (labelFormat "com.docker.compose.project") "eee555", "wiki\n"),
         (inspectArgs (labelFormat "com.docker.compose.service") "eee555", "app\n"),
         (inspectArgs (labelFormat "com.docker.compose.project.working_dir") "eee555",
            "\n")].lookup args }

/-- A line holds a value for a key when it reads `key="value"` somewhere, with
a value that is not empty and has no double quote. -/
def holdsValue (key line value : String) : Prop :=
  value ≠ "" ∧ (∀ c ∈ value.data, c ≠ '"') ∧
    ∃ pre post : String, line = pre ++ key ++ "=\"" ++ value ++ "\"" ++ post

/-- A Linux host with `httpd` only: `apache2ctl` is absent, and `httpd -V` gives
an absolute config file. -/
def httpdHost : World :=
  { bareWorld with
    LookPath := fun name => name == "httpd"
    Output := fun name args =>
      [(("httpd", ["-V"]),
          "Server version: Apache/2.4.57\n -D HTTPD_ROOT=\"/etc/httpd\"\n" ++
          " -D SERVER_CONFIG_FILE=\"/etc/httpd/conf/httpd.conf\"\n")].lookup (name, args) }

/-! ## Lemmas on the string functions -/

theorem dropWhile_all {p : Char → Bool} (xs rest : List Char) (hxs : ∀ c ∈ xs, p c = true) :
    (xs ++ rest).dropWhile p = rest.dropWhile p := by
  induction xs with
  | nil => rfl
  | cons x xs ih =>
    have hx : p x = true := hxs x (by simp)
    simp only [List.cons_append, List.dropWhile_cons, hx, if_true]
    exact ih (fun c hc => hxs c (by simp [hc]))

theorem rdropWhile_all {p : Char → Bool} (rest ys : List Char) (hys : ∀ c ∈ ys, p c = true) :
    (rest ++ ys).rdropWhile p = rest.rdropWhile p := by
  unfold List.rdropWhile
  rw [List.reverse_append, dropWhile_all _ _ (fun c hc => hys c (by simpa using hc))]

/-- Trimming by a predicate gives back a core that neither starts nor ends
with a character of the predicate. -/
theorem trim_core {p : Char → Bool} (xs core ys : List Char)
    (hxs : ∀ c ∈ xs, p c = true) (hys : ∀ c ∈ ys, p c = true)
    (hhead : ∀ c ∈ core.head?, p c = false) (hlast : ∀ c ∈ core.getLast?, p c = false) :
    ((xs ++ (core ++ ys)).dropWhile p).rdropWhile p = core := by
  rw [dropWhile_all _ _ hxs]
  rcases List.eq_nil_or_concat core with rfl | ⟨t, c, hcore⟩
  · rw [List.nil_append]
    have : ys.dropWhile p = [] := by
      have h := dropWhile_all ys [] hys
      simpa using h
    rw [this]; rfl
  · rw [List.concat_eq_append] at hcore
    subst hcore
    have hc : p c = false := hlast c (by simp)
    have hd : ((t ++ [c]) ++ ys).dropWhile p = (t ++ [c]) ++ ys := by
      cases t with
      | nil =>
        simp [List.dropWhile_cons, hc]
      | cons a t =>
        have ha : p a = false := hhead a (by simp)
        simp [List.dropWhile_cons, ha]
    rw [hd, rdropWhile_all _ _ hys]
    simp [List.rdropWhile_concat, hc]

theorem splitL_ne_nil (sep : Char) (s : List Char) : splitL sep s ≠ [] := by
  cases s with
  | nil => simp [splitL]
  | cons c cs =>
    simp only [splitL]
    split_ifs
    · simp
    · split <;> simp

theorem splitL_cons_sep (sep : Char) (cs : List Char) :
    splitL sep (sep :: cs) = [] :: splitL sep cs := by
  simp [splitL]

theorem splitL_cons_ne (sep c : Char) (cs l : List Char) (ls : List (List Char))
    (hc : c ≠ sep) (h : splitL sep cs = l :: ls) :
    splitL sep (c :: cs) = (c :: l) :: ls := by
  rw [splitL, if_neg hc, h]

theorem splitL_no_sep (sep : Char) (s : List Char) (h : ∀ c ∈ s, c ≠ sep) :
    splitL sep s = [s] := by
  induction s with
  | nil => rfl
  | cons c cs ih =>
    have hc : c ≠ sep := h c (by simp)
    simp only [splitL, hc, if_false]
    rw [ih (fun d hd => h d (by simp [hd]))]

theorem splitL_append_sep (sep : Char) (a b : List Char) (h : ∀ c ∈ a, c ≠ sep) :
    splitL sep (a ++ sep :: b) = a :: splitL sep b := by
  induction a with
  | nil => simp [splitL]
  | cons c cs ih =>
    have hc : c ≠ sep := h c (by simp)
    rw [List.cons_append,
      splitL_cons_ne _ _ _ _ _ hc (ih (fun d hd => h d (by simp [hd])))]

theorem mem_of_mem_splitL (sep : Char) (s : List Char) :
    ∀ l ∈ splitL sep s, ∀ c ∈ l, c ∈ s := by
  induction s with
  | nil => simp [splitL]
  | cons c cs ih =>
    intro l hl d hd
    simp only [splitL] at hl
    split_ifs at hl with hc
    · simp only [List.mem_cons] at hl
      rcases hl with rfl | hl
      · simp at hd
      · exact List.mem_cons_of_mem _ (ih l hl d hd)
    · cases hsp : splitL sep cs with
      | nil => exact absurd hsp (splitL_ne_nil sep cs)
      | cons l0 ls =>
        rw [hsp] at hl ih
        simp only [List.mem_cons] at hl
        rcases hl with rfl | hl
        · simp only [List.mem_cons] at hd
          rcases hd with rfl | hd
          · simp
          · exact List.mem_cons_of_mem _ (ih l0 (by simp) d hd)
        · exact List.mem_cons_of_mem _ (ih l (by simp [hl]) d hd)

/-- Splitting a concatenation: the last piece of the left part and the first
piece of the right part are glued, the other pieces stay. -/
theorem splitL_append (sep : Char) (a b : List Char) :
    ∃ as x y bs, splitL sep a = as ++ [x] ∧ splitL sep b = y :: bs ∧
      splitL sep (a ++ b) = as ++ (x ++ y) :: bs := by
  induction a with
  | nil =>
    cases hsp : splitL sep b with
    | nil => exact absurd hsp (splitL_ne_nil sep b)
    | cons y bs => exact ⟨[], [], y, bs, by simp [splitL], rfl, by simp [hsp]⟩
  | cons c cs ih =>
    obtain ⟨as, x, y, bs, h1, h2, h3⟩ := ih
    by_cases hc : c = sep
    · refine ⟨[] :: as, x, y, bs, ?_, h2, ?_⟩
      · simp [splitL, hc, h1]
      · subst hc
        rw [List.cons_append, splitL_cons_sep, h3]; rfl
    · cases as with
      | nil =>
        refine ⟨[], c :: x, y, bs, ?_, h2, ?_⟩
        · rw [splitL_cons_ne _ _ _ _ _ hc h1]; rfl
        · rw [List.cons_append, splitL_cons_ne _ _ _ _ _ hc h3]; rfl
      | cons a0 as =>
        refine ⟨(c :: a0) :: as, x, y, bs, ?_, h2, ?_⟩
        · rw [splitL_cons_ne _ _ _ _ _ hc h1]; rfl
        · rw [List.cons_append, splitL_cons_ne _ _ _ _ _ hc h3]; rfl

theorem fieldsL_space_cons (s : Char) (rest : List Char) (hs : isSpace s = true) :
    fieldsL (s :: rest) = fieldsL rest := by
  simp [fieldsL, hs]

/-- A run of non-space characters followed by a space is the first field. -/
theorem fieldsL_append_space (a : List Char) (s : Char) (rest : List Char)
    (hne : a ≠ []) (ha : ∀ c ∈ a, isSpace c = false) (hs : isSpace s = true) :
    fieldsL (a ++ s :: rest) = a :: fieldsL rest := by
  induction a with
  | nil => exact absurd rfl hne
  | cons c cs ih =>
    have hc : isSpace c = false := ha c (by simp)
    cases cs with
    | nil =>
      simp [fieldsL, hc, hs]
    | cons d ds =>
      have hd : isSpace d = false := ha d (by simp)
      have ih' := ih (by simp) (fun e he => ha e (by simp [he]))
      simp only [List.cons_append] at ih' ⊢
      rw [fieldsL]
      simp only [hc, hd, Bool.false_eq_true, if_false]
      rw [ih']

/-- A run of non-space characters is one field. -/
theorem fieldsL_nonspace (a : List Char) (hne : a ≠ []) (ha : ∀ c ∈ a, isSpace c = false) :
    fieldsL a = [a] := by
  induction a with
  | nil => exact absurd rfl hne
  | cons c cs ih =>
    have hc : isSpace c = false := ha c (by simp)
    cases cs with
    | nil => simp [fieldsL, hc]
    | cons d ds =>
      have hd : isSpace d = false := ha d (by simp)
      have ih' := ih (by simp) (fun e he => ha e (by simp [he]))
      rw [fieldsL]
      simp only [hc, hd, Bool.false_eq_true, if_false]
      rw [ih']

theorem isPrefixOf_append (a b : List Char) : a.isPrefixOf (a ++ b) = true := by
  induction a with
  | nil => simp [List.isPrefixOf]
  | cons c cs ih => simp [List.isPrefixOf, ih]

/-! ## Lemmas on the detectors -/

theorem getServiceStatus_ne_notInstalled (w : World) (a b : String) :
    getServiceStatus w a b ≠ "Not Installed" := by
  unfold getServiceStatus
  split_ifs <;> decide

theorem foldl_roots (g : String → List String) (l : List String) (ws : WebServer) :
    l.foldl (fun ws f => { ws with DocumentRoots := ws.DocumentRoots ++ g f }) ws =
      { ws with DocumentRoots := ws.DocumentRoots ++ l.flatMap g } := by
  induction l generalizing ws with
  | nil => simp
  | cons f fs ih => simp [ih, List.append_assoc]

theorem foldl_append_flatMap {α β : Type} (f : α → List β) (l : List α) (init : List β) :
    l.foldl (fun acc x => acc ++ f x) init = init ++ l.flatMap f := by
  induction l generalizing init with
  | nil => simp
  | cons x xs ih => simp [ih, List.append_assoc]

theorem detectApacheExit_absent (w : World)
    (h : ∀ n ∈ ["apache2", "httpd"], w.LookPath n = false) :
    detectApacheExit w = ⟨initialWebServer "Apache", false⟩ := by
  have h1 := h "apache2" (by simp)
  have h2 := h "httpd" (by simp)
  simp [detectApacheExit, h1, h2]

theorem detectApacheExit_present (w : World)
    (h : (["apache2", "httpd"].any w.LookPath) = true) :
    detectApacheExit w =
      ⟨{ ServerType := "Apache", Status := getServiceStatus w "apache2" "httpd",
         ConfigFile := apacheConfig w,
         DocumentRoots :=
           if apacheConfig w = "" then []
           else extractApacheDocumentRoots w (apacheConfig w) ++
             (extractApacheIncludeFiles w (apacheConfig w)).flatMap
               (extractApacheDocumentRoots w) }, true⟩ := by
  simp only [detectApacheExit, h, foldl_roots, initialWebServer, apacheConfig]
  by_cases hc : locateConfig w "apache"
    ["/etc/apache2/apache2.conf", "/etc/apache2/httpd.conf", "/etc/httpd/conf/httpd.conf",
     "/usr/local/etc/apache24/httpd.conf", "/opt/homebrew/etc/httpd/httpd.conf",
     "/usr/local/etc/httpd/httpd.conf", "/etc/apache2/httpd.conf"] = "" <;> simp [hc]

theorem detectNginxExit_absent (w : World) (h : w.LookPath "nginx" = false) :
    detectNginxExit w = ⟨initialWebServer "Nginx", false⟩ := by
  simp [detectNginxExit, h]

theorem detectNginxExit_present (w : World) (h : w.LookPath "nginx" = true) :
    detectNginxExit w =
      ⟨{ ServerType := "Nginx", Status := getServiceStatus w "nginx" "",
         ConfigFile := nginxConfig w,
         DocumentRoots :=
           if nginxConfig w = "" then []
           else extractNginxDocumentRoots w (nginxConfig w) ++
             (extractNginxIncludeFiles w (nginxConfig w)).flatMap
               (extractNginxDocumentRoots w) }, true⟩ := by
  simp only [detectNginxExit, h, foldl_roots, initialWebServer, nginxConfig]
  by_cases hc : locateConfig w "nginx"
    ["/etc/nginx/nginx.conf", "/usr/local/etc/nginx/nginx.conf",
     "/opt/homebrew/etc/nginx/nginx.conf"] = "" <;> simp [hc]

theorem detectLighttpdExit_absent (w : World) (h : w.LookPath "lighttpd" = false) :
    detectLighttpdExit w = ⟨initialWebServer "Lighttpd", false⟩ := by
  simp [detectLighttpdExit, h]

theorem detectLighttpdExit_status (w : World) (h : w.LookPath "lighttpd" = true) :
    (detectLighttpdExit w).webServer.Status = getServiceStatus w "lighttpd" "" ∧
      (detectLighttpdExit w).appended = true := by
  simp only [detectLighttpdExit, h]
  constructor
  · simp only [Bool.not_true, Bool.false_eq_true, if_false]
    split_ifs <;> rfl
  · simp

theorem detectCaddyExit_absent (w : World) (h : w.LookPath "caddy" = false) :
    detectCaddyExit w = ⟨initialWebServer "Caddy", false⟩ := by
  simp [detectCaddyExit, h]

theorem detectCaddyExit_status (w : World) (h : w.LookPath "caddy" = true) :
    (detectCaddyExit w).webServer.Status = getServiceStatus w "caddy" "" ∧
      (detectCaddyExit w).appended = true := by
  simp only [detectCaddyExit, h]
  constructor
  · simp only [Bool.not_true, Bool.false_eq_true, if_false]
    split_ifs <;> rfl
  · simp

/-! ## Lemmas on the include resolver -/

theorem hasPrefix_includeOptional (s : String) (h : HasPrefix s "IncludeOptional" = true) :
    HasPrefix s "Include" = true := by
  unfold HasPrefix at *
  rw [List.isPrefixOf_iff_prefix] at *
  exact List.IsPrefix.trans (by decide) h

theorem apacheIncludeLine_eq (w : World) (configFile line : String) :
    apacheIncludeLine w configFile line =
      (apacheIncludeValue line).toList.flatMap
        (fun value => globFiles w (apacheGlobPattern w (resolveInclude w configFile value))) := by
  unfold apacheIncludeLine apacheIncludeValue
  by_cases h1 : HasPrefix (TrimSpace line) "Include" = true
  · by_cases h2 : 2 ≤ (Fields (TrimSpace line)).length
    · simp only [h1, h2, Bool.true_or, if_true, decide_True, Bool.and_self]
      unfold globFiles apacheGlobPattern resolveInclude
      cases hab : w.IsAbs (Trim ((Fields (TrimSpace line)).getD 1 "") "\"'") <;>
        simp only [Bool.not_false, Bool.not_true, if_true, Bool.false_eq_true, if_false] <;>
        split_ifs <;> (split <;> simp_all)
    · simp [h1, h2]
  · have h3 : ¬ HasPrefix (TrimSpace line) "IncludeOptional" = true :=
      fun h => h1 (hasPrefix_includeOptional _ h)
    simp [h1, h3]

theorem nginxIncludeLine_eq (w : World) (configFile line : String) :
    nginxIncludeLine w configFile line =
      (nginxIncludeValue line).toList.flatMap
        (fun value => globFiles w (resolveInclude w configFile value)) := by
  unfold nginxIncludeLine nginxIncludeValue
  by_cases h1 : HasPrefix (TrimSpace line) "include" = true
  · by_cases h2 : 2 ≤ (Fields (TrimSpace line)).length
    · simp only [h1, h2, if_true, decide_True, Bool.and_self]
      unfold globFiles resolveInclude
      cases hab : w.IsAbs (TrimRight (Trim ((Fields (TrimSpace line)).getD 1 "") "\"'") ";") <;>
        simp only [Bool.not_false, Bool.not_true, if_true, Bool.false_eq_true, if_false] <;>
        (split <;> simp_all)
    · simp [h1, h2]
  · simp [h1]

theorem flatMap_option {α β γ : Type} (g : α → Option β) (h : β → List γ) (l : List α) :
    l.flatMap (fun a => (g a).toList.flatMap h) = (l.filterMap g).flatMap h := by
  induction l with
  | nil => rfl
  | cons a as ih =>
    rw [List.flatMap_cons, ih]
    cases hg : g a <;> simp [List.filterMap_cons, hg]

theorem extractApacheIncludeFiles_eq (w : World) (configFile : String) :
    extractApacheIncludeFiles w configFile =
      ((configLines w configFile).filterMap apacheIncludeValue).flatMap
        (fun value => globFiles w (apacheGlobPattern w (resolveInclude w configFile value))) := by
  unfold extractApacheIncludeFiles configLines
  cases w.ReadFile configFile with
  | none => rfl
  | some data =>
    simp only [foldl_append_flatMap, List.nil_append]
    rw [← flatMap_option]
    congr 1
    funext line
    exact apacheIncludeLine_eq w configFile line

theorem extractNginxIncludeFiles_eq (w : World) (configFile : String) :
    extractNginxIncludeFiles w configFile =
      ((configLines w configFile).filterMap nginxIncludeValue).flatMap
        (fun value => globFiles w (resolveInclude w configFile value)) := by
  unfold extractNginxIncludeFiles configLines
  cases w.ReadFile configFile with
  | none => rfl
  | some data =>
    simp only [foldl_append_flatMap, List.nil_append]
    rw [← flatMap_option]
    congr 1
    funext line
    exact nginxIncludeLine_eq w configFile line

/-! ## The claims -/

/-- The record a web-server detector holds when it returns has an empty
`ConfigFile` and no `DocumentRoots` if its `Status` is "Not Installed": that
status is kept on the not-installed return only, where nothing is appended. -/
theorem notInstalled_record_has_no_config (w : World) (e : DetectorExit)
    (he : e ∈ [detectApacheExit w, detectNginxExit w, detectLighttpdExit w, detectCaddyExit w])
    (hs : e.webServer.Status = "Not Installed") :
    e.webServer.ConfigFile = "" ∧ e.webServer.DocumentRoots = [] := by
  simp only [List.mem_cons, List.mem_singleton, List.not_mem_nil, or_false] at he
  rcases he with rfl | rfl | rfl | rfl
  · by_cases h : (["apache2", "httpd"].any w.LookPath) = true
    · rw [detectApacheExit_present w h] at hs
      exact absurd hs (getServiceStatus_ne_notInstalled w _ _)
    · have h' : ∀ n ∈ ["apache2", "httpd"], w.LookPath n = false := by
        simpa using h
      rw [detectApacheExit_absent w h']
      exact ⟨rfl, rfl⟩
  · cases h : w.LookPath "nginx"
    · rw [detectNginxExit_absent w h]
      exact ⟨rfl, rfl⟩
    · rw [detectNginxExit_present w h] at hs
      exact absurd hs (getServiceStatus_ne_notInstalled w _ _)
  · cases h : w.LookPath "lighttpd"
    · rw [detectLighttpdExit_absent w h]
      exact ⟨rfl, rfl⟩
    · rw [(detectLighttpdExit_status w h).1] at hs
      exact absurd hs (getServiceStatus_ne_notInstalled w _ _)
  · cases h : w.LookPath "caddy"
    · rw [detectCaddyExit_absent w h]
      exact ⟨rfl, rfl⟩
    · rw [(detectCaddyExit_status w h).1] at hs
      exact absurd hs (getServiceStatus_ne_notInstalled w _ _)

theorem notInstalled_record_has_no_config_witness :
    (detectNginxExit bareWorld).webServer.Status = "Not Installed" ∧
      (detectNginxExit bareWorld).webServer.ConfigFile = "" ∧
      (detectNginxExit bareWorld).webServer.DocumentRoots = [] :=
  ⟨by decide, notInstalled_record_has_no_config bareWorld (detectNginxExit bareWorld)
    (by simp) (by decide)⟩

/-- Claim C2 as stated fails: on a host where neither `apache2` nor `httpd` is
found, `detectApache` leaves an empty report empty, so the report gains no
Apache record with status "Not Installed". -/
theorem absent_apache_adds_no_record :
    (∀ n ∈ ["apache2", "httpd"], bareWorld.LookPath n = false) ∧
      ¬ ∃ r ∈ (detectApache bareWorld ⟨[]⟩).WebServers,
        r.ServerType = "Apache" ∧ r.Status = "Not Installed" := by
  decide

/-- Claim C2, amended: when executable lookup fails for every acceptable binary
name of a kind, the detector of that kind returns the report unchanged; its
local record, of status "Not Installed", is not appended. -/
theorem absent_executable_leaves_report (w : World) (report : DiscoveryReport)
    (d : List String × (World → DiscoveryReport → DiscoveryReport) × (World → DetectorExit))
    (hd : d ∈ [(["apache2", "httpd"], detectApache, detectApacheExit),
      (["nginx"], detectNginx, detectNginxExit),
      (["lighttpd"], detectLighttpd, detectLighttpdExit),
      (["caddy"], detectCaddy, detectCaddyExit)])
    (habsent : ∀ n ∈ d.1, w.LookPath n = false) :
    d.2.1 w report = report ∧ (d.2.2 w).appended = false ∧
      (d.2.2 w).webServer.Status = "Not Installed" := by
  simp only [List.mem_cons, List.mem_singleton, List.not_mem_nil, or_false] at hd
  rcases hd with rfl | rfl | rfl | rfl
  · simp [detectApache, detectApacheExit_absent w habsent, commit, initialWebServer]
  · have h : w.LookPath "nginx" = false := habsent "nginx" (by simp)
    simp [detectNginx, detectNginxExit_absent w h, commit, initialWebServer]
  · have h : w.LookPath "lighttpd" = false := habsent "lighttpd" (by simp)
    simp [detectLighttpd, detectLighttpdExit_absent w h, commit, initialWebServer]
  · have h : w.LookPath "caddy" = false := habsent "caddy" (by simp)
    simp [detectCaddy, detectCaddyExit_absent w h, commit, initialWebServer]

theorem absent_executable_leaves_report_witness :
    detectCaddy nginxHost ⟨[]⟩ = ⟨[]⟩ ∧ (detectCaddyExit nginxHost).appended = false ∧
      (detectCaddyExit nginxHost).webServer.Status = "Not Installed" :=
  absent_executable_leaves_report nginxHost ⟨[]⟩ (["caddy"], detectCaddy, detectCaddyExit)
    (by simp) (by decide)

/-- Claim C3. When `detectApache` or `detectNginx` ends with a config path, its
`DocumentRoots` are the roots of that config followed, for each include
directive of the config in line order and each file the directive expands to
in glob order, by the roots of that file. Nothing is sorted or removed, and
the include directives of the included files are not looked at. -/
theorem documentRoots_in_discovery_order (w : World) :
    ((detectApacheExit w).webServer.ConfigFile ≠ "" →
      (detectApacheExit w).webServer.DocumentRoots =
        extractApacheDocumentRoots w (detectApacheExit w).webServer.ConfigFile ++
          ((configLines w (detectApacheExit w).webServer.ConfigFile).filterMap
              apacheIncludeValue).flatMap
            (fun value =>
              (globFiles w (apacheGlobPattern w
                (resolveInclude w (detectApacheExit w).webServer.ConfigFile value))).flatMap
                (extractApacheDocumentRoots w))) ∧
    ((detectNginxExit w).webServer.ConfigFile ≠ "" →
      (detectNginxExit w).webServer.DocumentRoots =
        extractNginxDocumentRoots w (detectNginxExit w).webServer.ConfigFile ++
          ((configLines w (detectNginxExit w).webServer.ConfigFile).filterMap
              nginxIncludeValue).flatMap
            (fun value =>
              (globFiles w (resolveInclude w (detectNginxExit w).webServer.ConfigFile
                value)).flatMap (extractNginxDocumentRoots w))) := by
  constructor
  · intro hc
    by_cases h : (["apache2", "httpd"].any w.LookPath) = true
    · rw [detectApacheExit_present w h] at hc ⊢
      simp only at hc ⊢
      rw [if_neg hc, extractApacheIncludeFiles_eq, List.flatMap_assoc]
    · have h' : ∀ n ∈ ["apache2", "httpd"], w.LookPath n = false := by
        simpa using h
      rw [detectApacheExit_absent w h'] at hc
      exact absurd rfl hc
  · intro hc
    cases h : w.LookPath "nginx"
    · rw [detectNginxExit_absent w h] at hc
      exact absurd rfl hc
    · rw [detectNginxExit_present w h] at hc ⊢
      simp only at hc ⊢
      rw [if_neg hc, extractNginxIncludeFiles_eq, List.flatMap_assoc]

theorem documentRoots_in_discovery_order_witness :
    (detectApacheExit apacheHost).webServer.ConfigFile = "/etc/apache2/apache2.conf" ∧
    (detectApacheExit apacheHost).webServer.DocumentRoots = ["/var/www/html", "/var/www/site"] ∧
    (detectNginxExit nginxHost).webServer.ConfigFile = "/etc/nginx/nginx.conf" ∧
    (detectNginxExit nginxHost).webServer.DocumentRoots =
      ["/usr/share/nginx/html", "/srv/a", "/srv/b", "/var/www/html"] := by
  refine ⟨by decide, ?_, by decide, ?_⟩
  · rw [(documentRoots_in_discovery_order apacheHost).1 (by decide)]
    decide
  · rw [(documentRoots_in_discovery_order nginxHost).2 (by decide)]
    decide

/-- Claim C8. The include files of a config are the expansions, in order, of
its include values, where a value that is not absolute is first joined to the
directory of the including file and an absolute value is taken as it is; the
pattern depends on the config path and the value only. -/
theorem include_resolved_against_including_file (w : World) (configFile : String) :
    extractApacheIncludeFiles w configFile =
      ((configLines w configFile).filterMap apacheIncludeValue).flatMap
        (fun value => globFiles w (apacheGlobPattern w
          (if w.IsAbs value then value else w.Join (w.Dir configFile) value))) ∧
    extractNginxIncludeFiles w configFile =
      ((configLines w configFile).filterMap nginxIncludeValue).flatMap
        (fun value => globFiles w
          (if w.IsAbs value then value else w.Join (w.Dir configFile) value)) :=
  ⟨extractApacheIncludeFiles_eq w configFile, extractNginxIncludeFiles_eq w configFile⟩

/-- Claim C9 as stated fails for Nginx: with the directive
`include /etc/nginx/conf.d;`, where the target is an existing directory that
holds `site.conf`, `extractNginxIncludeFiles` returns the directory itself and
not the file under it. -/
theorem nginx_directory_include_not_expanded :
    nginxIncludeValue "include /etc/nginx/conf.d;" = some "/etc/nginx/conf.d" ∧
    nginxDirHost.Stat "/etc/nginx/conf.d" = some true ∧
    nginxDirHost.Glob (nginxDirHost.Join "/etc/nginx/conf.d" "*.conf") =
      some ["/etc/nginx/conf.d/site.conf"] ∧
    extractNginxIncludeFiles nginxDirHost "/etc/nginx/nginx.conf" = ["/etc/nginx/conf.d"] ∧
    extractNginxIncludeFiles nginxDirHost "/etc/nginx/nginx.conf" ≠
      globFiles nginxDirHost (nginxDirHost.Join "/etc/nginx/conf.d" "*.conf") := by
  decide

/-- Claim C9, amended: Apache expands an include target that is an existing
directory to the matches of `target/*.conf`, and any other target as a glob
pattern; Nginx has no directory case and expands every target as a glob
pattern. -/
theorem include_directory_expansion (w : World) (configFile : String) :
    extractApacheIncludeFiles w configFile =
      ((configLines w configFile).filterMap apacheIncludeValue).flatMap
        (fun value =>
          if w.Stat (resolveInclude w configFile value) = some true then
            globFiles w (w.Join (resolveInclude w configFile value) "*.conf")
          else globFiles w (resolveInclude w configFile value)) ∧
    extractNginxIncludeFiles w configFile =
      ((configLines w configFile).filterMap nginxIncludeValue).flatMap
        (fun value => globFiles w (resolveInclude w configFile value)) := by
  refine ⟨?_, extractNginxIncludeFiles_eq w configFile⟩
  rw [extractApacheIncludeFiles_eq]
  congr 1
  funext value
  unfold apacheGlobPattern
  split_ifs <;> rfl

theorem trimSpace_mk_core (xs core ys : List Char)
    (hxs : ∀ c ∈ xs, isSpace c = true) (hys : ∀ c ∈ ys, isSpace c = true)
    (hhead : ∀ c ∈ core.head?, isSpace c = false)
    (hlast : ∀ c ∈ core.getLast?, isSpace c = false) :
    TrimSpace ⟨xs ++ (core ++ ys)⟩ = ⟨core⟩ := by
  unfold TrimSpace
  rw [trim_core xs core ys hxs hys hhead hlast]

theorem trimSpace_mk_space (xs : List Char) (hxs : ∀ c ∈ xs, isSpace c = true) :
    TrimSpace ⟨xs⟩ = "" := by
  have h := trimSpace_mk_core xs [] [] hxs (by simp) (by simp) (by simp)
  simpa using h

/-- The lines of a text made of white space, a core without line break that
starts and ends with a non-space character, and white space again: every
line is blank but one, and that one trims to the core. -/
theorem flatMap_split_core {β : Type} (f : String → List β)
    (hf : ∀ a b, TrimSpace a = TrimSpace b → f a = f b) (h0 : f "" = [])
    (ws1 core ws2 : List Char)
    (hws1 : ∀ c ∈ ws1, isSpace c = true) (hws2 : ∀ c ∈ ws2, isSpace c = true)
    (hnl : ∀ c ∈ core, c ≠ '\n')
    (hhead : ∀ c ∈ core.head?, isSpace c = false)
    (hlast : ∀ c ∈ core.getLast?, isSpace c = false) :
    (Split ⟨ws1 ++ (core ++ ws2)⟩ '\n').flatMap f = f ⟨core⟩ := by
  have hblank : ∀ (ws : List Char), (∀ c ∈ ws, isSpace c = true) →
      ∀ ls : List (List Char), (∀ l ∈ ls, ∀ c ∈ l, c ∈ ws) →
        (ls.map String.mk).flatMap f = [] := by
    intro ws hws ls hls
    rw [List.flatMap_eq_nil_iff]
    intro s hs
    obtain ⟨l, hl, rfl⟩ := List.mem_map.1 hs
    have : TrimSpace ⟨l⟩ = TrimSpace "" := by
      rw [trimSpace_mk_space l (fun c hc => hws c (hls l hl c hc))]
      decide
    rw [hf _ _ this, h0]
  obtain ⟨as2, x2, y2, bs2, h21, h22, h23⟩ := splitL_append '\n' core ws2
  rw [splitL_no_sep '\n' core hnl] at h21
  have has2 : as2 = [] ∧ x2 = core := by
    cases as2 with
    | nil => simpa using h21.symm
    | cons a as => cases as <;> simp at h21
  obtain ⟨rfl, rfl⟩ := has2
  obtain ⟨as1, x1, y1, bs1, h11, h12, h13⟩ := splitL_append '\n' ws1 (x2 ++ ws2)
  rw [h23] at h12
  simp only [List.nil_append, List.cons.injEq] at h12
  obtain ⟨rfl, rfl⟩ := h12
  have hmem1 := mem_of_mem_splitL '\n' ws1
  rw [h11] at hmem1
  have hmem2 := mem_of_mem_splitL '\n' ws2
  rw [h22] at hmem2
  unfold Split
  simp only [h13, List.map_append, List.map_cons, List.flatMap_append, List.flatMap_cons]
  rw [hblank ws1 hws1 as1 (fun l hl => hmem1 l (by simp [hl])),
    hblank ws2 hws2 bs2 (fun l hl => hmem2 l (by simp [hl]))]
  have hmid : TrimSpace ⟨x1 ++ (x2 ++ y2)⟩ = TrimSpace ⟨x2⟩ := by
    rw [trimSpace_mk_core x1 x2 y2 (fun c hc => hws1 c (hmem1 x1 (by simp) c hc))
      (fun c hc => hws2 c (hmem2 y2 (by simp) c hc)) hhead hlast]
    have h := trimSpace_mk_core [] x2 [] (by simp) (by simp) hhead hlast
    simp only [List.nil_append, List.append_nil] at h
    exact h.symm
  rw [hf _ _ hmid]
  simp

/-- A line made of a keyword, one space and a value, both free of white space:
trimming leaves it as it is, the keyword is a prefix, and the fields are the
keyword and the value. -/
theorem directive_line (kw value : List Char) (hkw : kw ≠ []) (hv : value ≠ [])
    (hkws : ∀ c ∈ kw, isSpace c = false) (hvs : ∀ c ∈ value, isSpace c = false) :
    (∀ c ∈ (kw ++ ' ' :: value).head?, isSpace c = false) ∧
    (∀ c ∈ (kw ++ ' ' :: value).getLast?, isSpace c = false) ∧
    TrimSpace ⟨kw ++ ' ' :: value⟩ = ⟨kw ++ ' ' :: value⟩ ∧
    HasPrefix ⟨kw ++ ' ' :: value⟩ ⟨kw⟩ = true ∧
    Fields ⟨kw ++ ' ' :: value⟩ = [⟨kw⟩, ⟨value⟩] := by
  have hhead : ∀ c ∈ (kw ++ ' ' :: value).head?, isSpace c = false := by
    intro c hc
    rw [List.head?_append_of_ne_nil _ hkw] at hc
    exact hkws c (List.mem_of_mem_head? hc)
  have hlast : ∀ c ∈ (kw ++ ' ' :: value).getLast?, isSpace c = false := by
    intro c hc
    rw [List.getLast?_append_of_ne_nil _ (by simp)] at hc
    cases value with
    | nil => exact absurd rfl hv
    | cons v vs =>
      rw [List.getLast?_cons_cons] at hc
      exact hvs c (List.mem_of_mem_getLast? hc)
  refine ⟨hhead, hlast, ?_, ?_, ?_⟩
  · have h := trimSpace_mk_core [] (kw ++ ' ' :: value) [] (by simp) (by simp) hhead hlast
    simpa using h
  · exact isPrefixOf_append kw _
  · unfold Fields
    show List.map String.mk (fieldsL (kw ++ ' ' :: value)) = _
    rw [fieldsL_append_space kw ' ' value hkw hkws (by decide), fieldsL_nonspace value hv hvs]
    rfl

theorem trim_mk_core (cutset : String) (xs core ys : List Char)
    (hxs : ∀ c ∈ xs, inCutset cutset c = true) (hys : ∀ c ∈ ys, inCutset cutset c = true)
    (hhead : ∀ c ∈ core.head?, inCutset cutset c = false)
    (hlast : ∀ c ∈ core.getLast?, inCutset cutset c = false) :
    Trim ⟨xs ++ (core ++ ys)⟩ cutset = ⟨core⟩ := by
  unfold Trim
  rw [trim_core xs core ys hxs hys hhead hlast]

theorem trimRight_mk_core (cutset : String) (core ys : List Char)
    (hys : ∀ c ∈ ys, inCutset cutset c = true)
    (hlast : ∀ c ∈ core.getLast?, inCutset cutset c = false) :
    TrimRight ⟨core ++ ys⟩ cutset = ⟨core⟩ := by
  unfold TrimRight
  show String.mk (List.rdropWhile (inCutset cutset) (core ++ ys)) = _
  rw [rdropWhile_all _ _ hys]
  rcases List.eq_nil_or_concat core with rfl | ⟨t, c, hcore⟩
  · rfl
  · rw [List.concat_eq_append] at hcore
    subst hcore
    have hc : inCutset cutset c = false := hlast c (by simp)
    simp [List.rdropWhile_concat, hc]

theorem apacheDocRootLine_congr (a b : String) (h : TrimSpace a = TrimSpace b) :
    apacheDocRootLine a = apacheDocRootLine b := by
  unfold apacheDocRootLine
  rw [h]

theorem nginxDocRootLine_congr (a b : String) (h : TrimSpace a = TrimSpace b) :
    nginxDocRootLine a = nginxDocRootLine b := by
  unfold nginxDocRootLine
  rw [h]

/-- Claim C4. For a non-empty path `P` without white space and without quote
characters, a config file that holds the line `DocumentRoot "P"`, with any
white space (line breaks included) before and after it, gives exactly `[P]`. -/
theorem apache_quoted_documentRoot (w : World) (configFile P ws1 ws2 : String)
    (hP : P ≠ "")
    (hchars : ∀ c ∈ P.data, isSpace c = false ∧ inCutset "\"'" c = false)
    (hws1 : ∀ c ∈ ws1.data, isSpace c = true) (hws2 : ∀ c ∈ ws2.data, isSpace c = true)
    (hread : w.ReadFile configFile = some (ws1 ++ "DocumentRoot \"" ++ P ++ "\"" ++ ws2)) :
    extractApacheDocumentRoots w configFile = [P] := by
  have hPd : P.data ≠ [] := fun h => hP (String.ext h)
  have hvalue : ∀ c ∈ '"' :: (P.data ++ ['"']), isSpace c = false := by
    intro c hc
    simp only [List.mem_cons, List.mem_append, List.mem_singleton, List.not_mem_nil,
      or_false] at hc
    rcases hc with rfl | hc | rfl
    · decide
    · exact (hchars c hc).1
    · decide
  obtain ⟨hhead, hlast, htrim, hpre, hfields⟩ :=
    directive_line "DocumentRoot".data ('"' :: (P.data ++ ['"']))
      (by decide) (by simp) (by decide) hvalue
  have hcontent : ws1 ++ "DocumentRoot \"" ++ P ++ "\"" ++ ws2 =
      ⟨ws1.data ++ (("DocumentRoot".data ++ ' ' :: '"' :: (P.data ++ ['"']))
        ++ ws2.data)⟩ := by
    apply String.ext
    simp [String.data_append]
  have hnl : ∀ c ∈ "DocumentRoot".data ++ ' ' :: '"' :: (P.data ++ ['"']),
      c ≠ '\n' := by
    have hkw : ∀ c ∈ "DocumentRoot".data, c ≠ '\n' := by decide
    intro c hc
    rcases List.mem_append.1 hc with hc | hc
    · exact hkw c hc
    · rcases List.mem_cons.1 hc with rfl | hc
      · decide
      · intro h
        have := hvalue c hc
        rw [h] at this
        exact absurd this (by decide)
  unfold extractApacheDocumentRoots
  rw [hread]
  simp only [foldl_append_flatMap, List.nil_append]
  rw [hcontent, flatMap_split_core apacheDocRootLine apacheDocRootLine_congr (by decide)
    ws1.data _ ws2.data hws1 hws2 hnl hhead hlast]
  unfold apacheDocRootLine
  simp only [htrim]
  have hpre' : HasPrefix ⟨"DocumentRoot".data ++ ' ' :: '"' ::
      (P.data ++ ['"'])⟩ "DocumentRoot" = true := hpre
  rw [hpre', hfields]
  simp only [if_true, List.length_cons, List.length_nil, Nat.le_refl, List.getD_cons_succ,
    List.getD_cons_zero, Nat.reduceAdd]
  have htrimq : Trim ⟨'"' :: (P.data ++ ['"'])⟩ "\"'" = ⟨P.data⟩ := by
    have h := trim_mk_core "\"'" ['"'] P.data ['"'] (by decide) (by decide)
      (fun c hc => (hchars c (List.mem_of_mem_head? hc)).2)
      (fun c hc => (hchars c (List.mem_of_mem_getLast? hc)).2)
    simpa using h
  rw [htrimq]

theorem apache_quoted_documentRoot_witness :
    extractApacheDocumentRoots
        (bareWorld.withFile "/etc/apache2/apache2.conf" "DocumentRoot \"/var/www/html\"")
        "/etc/apache2/apache2.conf" = ["/var/www/html"] ∧
    extractApacheDocumentRoots
        (bareWorld.withFile "/etc/apache2/apache2.conf" " \tDocumentRoot \"/srv/www\" \r\n")
        "/etc/apache2/apache2.conf" = ["/srv/www"] :=
  ⟨apache_quoted_documentRoot _ "/etc/apache2/apache2.conf" "/var/www/html" "" ""
      (by decide) (by decide) (by decide) (by decide) (by decide),
    apache_quoted_documentRoot _ "/etc/apache2/apache2.conf" "/srv/www" " \t" " \r\n"
      (by decide) (by decide) (by decide) (by decide) (by decide)⟩

theorem not_semicolon_of_getLast (l : List Char) (h : l.getLast? ≠ some ';') :
    ∀ c ∈ l.getLast?, inCutset ";" c = false := by
  intro c hc
  have hne : c ≠ ';' := by
    rintro rfl
    exact h hc
  simp [inCutset, hne]

/-- Claim C5. For a non-empty path `P` without white space and quote characters
that does not end in `;`, a config file that holds the line `root P;`, with
any white space before and after it, gives exactly `[P]`. -/
theorem nginx_root_terminator_stripped (w : World) (configFile P ws1 ws2 : String)
    (hP : P ≠ "")
    (hchars : ∀ c ∈ P.data, isSpace c = false ∧ inCutset "\"'" c = false)
    (hsemi : P.data.getLast? ≠ some ';')
    (hws1 : ∀ c ∈ ws1.data, isSpace c = true) (hws2 : ∀ c ∈ ws2.data, isSpace c = true)
    (hread : w.ReadFile configFile = some (ws1 ++ "root " ++ P ++ ";" ++ ws2)) :
    extractNginxDocumentRoots w configFile = [P] := by
  have hPd : P.data ≠ [] := fun h => hP (String.ext h)
  have hvalue : ∀ c ∈ P.data ++ [';'], isSpace c = false := by
    intro c hc
    rcases List.mem_append.1 hc with hc | hc
    · exact (hchars c hc).1
    · rw [List.mem_singleton.1 hc]
      decide
  obtain ⟨hhead, hlast, htrim, hpre, hfields⟩ :=
    directive_line "root".data (P.data ++ [';']) (by decide) (by simp) (by decide) hvalue
  have hcontent : ws1 ++ "root " ++ P ++ ";" ++ ws2 =
      ⟨ws1.data ++ (("root".data ++ ' ' :: (P.data ++ [';'])) ++ ws2.data)⟩ := by
    apply String.ext
    simp [String.data_append]
  have hnl : ∀ c ∈ "root".data ++ ' ' :: (P.data ++ [';']), c ≠ '\n' := by
    have hkw : ∀ c ∈ "root".data, c ≠ '\n' := by decide
    intro c hc
    rcases List.mem_append.1 hc with hc | hc
    · exact hkw c hc
    · rcases List.mem_cons.1 hc with rfl | hc
      · decide
      · intro h
        have := hvalue c hc
        rw [h] at this
        exact absurd this (by decide)
  unfold extractNginxDocumentRoots
  rw [hread]
  simp only [foldl_append_flatMap, List.nil_append]
  rw [hcontent, flatMap_split_core nginxDocRootLine nginxDocRootLine_congr (by decide)
    ws1.data _ ws2.data hws1 hws2 hnl hhead hlast]
  unfold nginxDocRootLine
  simp only [htrim]
  have hpre' : HasPrefix ⟨"root".data ++ ' ' :: (P.data ++ [';'])⟩ "root" = true := hpre
  rw [hpre', hfields]
  simp only [if_true, List.length_cons, List.length_nil, Nat.le_refl, List.getD_cons_succ,
    List.getD_cons_zero, Nat.reduceAdd]
  have htrimq : Trim ⟨P.data ++ [';']⟩ "\"'" = ⟨P.data ++ [';']⟩ := by
    have h := trim_mk_core "\"'" [] (P.data ++ [';']) [] (by simp) (by simp)
      (fun c hc => by
        rw [List.head?_append_of_ne_nil _ hPd] at hc
        exact (hchars c (List.mem_of_mem_head? hc)).2)
      (fun c hc => by
        rw [List.getLast?_concat] at hc
        rw [← Option.mem_some_iff.1 hc]
        decide)
    simpa using h
  rw [htrimq, trimRight_mk_core ";" P.data [';'] (by decide) (not_semicolon_of_getLast _ hsemi)]

theorem nginx_root_terminator_stripped_witness :
    extractNginxDocumentRoots
        (bareWorld.withFile "/etc/nginx/nginx.conf" "root /usr/share/nginx/html;")
        "/etc/nginx/nginx.conf" = ["/usr/share/nginx/html"] ∧
    extractNginxDocumentRoots
        (bareWorld.withFile "/etc/nginx/nginx.conf" "\n    root /srv/www;\n")
        "/etc/nginx/nginx.conf" = ["/srv/www"] :=
  ⟨nginx_root_terminator_stripped _ "/etc/nginx/nginx.conf" "/usr/share/nginx/html" "" ""
      (by decide) (by decide) (by decide) (by decide) (by decide) (by decide),
    nginx_root_terminator_stripped _ "/etc/nginx/nginx.conf" "/srv/www" "\n    " "\n"
      (by decide) (by decide) (by decide) (by decide) (by decide) (by decide)⟩

theorem nginxIncludeLine_congr (w : World) (configFile a b : String)
    (h : TrimSpace a = TrimSpace b) :
    nginxIncludeLine w configFile a = nginxIncludeLine w configFile b := by
  unfold nginxIncludeLine
  rw [h]

theorem apacheIncludeLine_congr (w : World) (configFile a b : String)
    (h : TrimSpace a = TrimSpace b) :
    apacheIncludeLine w configFile a = apacheIncludeLine w configFile b := by
  unfold apacheIncludeLine
  rw [h]

/-- The file made of one line, without white space around it. -/
theorem flatMap_split_line {β : Type} (f : String → List β)
    (hf : ∀ a b, TrimSpace a = TrimSpace b → f a = f b) (h0 : f "" = [])
    (core : List Char) (hnl : ∀ c ∈ core, c ≠ '\n')
    (hhead : ∀ c ∈ core.head?, isSpace c = false)
    (hlast : ∀ c ∈ core.getLast?, isSpace c = false) :
    (Split ⟨core⟩ '\n').flatMap f = f ⟨core⟩ := by
  have h := flatMap_split_core f hf h0 [] core [] (by simp) (by simp) hnl hhead hlast
  simpa using h

/-- The normalisation of Nginx on a quoted value that is followed by the
terminator: the opening quote and the terminator go, the closing quote stays. -/
theorem nginx_normalise_quoted (q : Char) (P : List Char) (hq : q = '"' ∨ q = '\'')
    (hP : P ≠ []) (hhead : ∀ c ∈ P.head?, inCutset "\"'" c = false) :
    TrimRight (Trim ⟨q :: (P ++ [q, ';'])⟩ "\"'") ";" = ⟨P ++ [q]⟩ := by
  have hq1 : inCutset "\"'" q = true := by
    rcases hq with rfl | rfl <;> decide
  have hq2 : inCutset ";" q = false := by
    rcases hq with rfl | rfl <;> decide
  have h1 : Trim ⟨q :: (P ++ [q, ';'])⟩ "\"'" = ⟨P ++ [q, ';']⟩ := by
    have h := trim_mk_core "\"'" [q] (P ++ [q, ';']) []
      (by simpa using hq1) (by simp)
      (fun c hc => by
        rw [List.head?_append_of_ne_nil _ hP] at hc
        exact hhead c hc)
      (fun c hc => by
        have : (P ++ [q, ';']).getLast? = some ';' := by
          rw [show P ++ [q, ';'] = (P ++ [q]) ++ [';'] by simp, List.getLast?_concat]
        rw [this] at hc
        rw [← Option.mem_some_iff.1 hc]
        decide)
    simpa using h
  rw [h1]
  have h2 := trimRight_mk_core ";" (P ++ [q]) [';'] (by decide)
    (fun c hc => by
      rw [List.getLast?_concat] at hc
      rw [← Option.mem_some_iff.1 hc]
      exact hq2)
  simpa using h2

/-- Claim C6, what the code does: on the line `root "P";` (or with single
quotes) `extractNginxDocumentRoots` returns `P` followed by the closing quote,
not `P`, and `extractNginxIncludeFiles` expands on `include "P";` the pattern
`P` followed by the closing quote: the quotes are trimmed before the
terminator, so the closing quote is shielded by the `;`. -/
theorem nginx_quoted_value_keeps_closing_quote (w : World) (rootFile includeFile P : String)
    (q : Char) (hq : q = '"' ∨ q = '\'') (hP : P ≠ "")
    (hchars : ∀ c ∈ P.data, isSpace c = false ∧ inCutset "\"'" c = false ∧ c ≠ ';')
    (hroot : w.ReadFile rootFile = some ("root " ++ ⟨[q]⟩ ++ P ++ ⟨[q]⟩ ++ ";"))
    (hinclude : w.ReadFile includeFile = some ("include " ++ ⟨[q]⟩ ++ P ++ ⟨[q]⟩ ++ ";")) :
    extractNginxDocumentRoots w rootFile = [P ++ ⟨[q]⟩] ∧
    extractNginxIncludeFiles w includeFile =
      globFiles w (resolveInclude w includeFile (P ++ ⟨[q]⟩)) := by
  have hPd : P.data ≠ [] := fun h => hP (String.ext h)
  have hqs : isSpace q = false := by
    rcases hq with rfl | rfl <;> decide
  have hqn : q ≠ '\n' := by
    rcases hq with rfl | rfl <;> decide
  have hvalue : ∀ c ∈ q :: (P.data ++ [q, ';']), isSpace c = false := by
    intro c hc
    simp only [List.mem_cons, List.mem_append, List.not_mem_nil, or_false] at hc
    rcases hc with rfl | hc | rfl | rfl
    · exact hqs
    · exact (hchars c hc).1
    · exact hqs
    · decide
  have hvnl : ∀ c ∈ ' ' :: q :: (P.data ++ [q, ';']), c ≠ '\n' := by
    intro c hc
    rcases List.mem_cons.1 hc with rfl | hc
    · decide
    · intro h
      have := hvalue c hc
      rw [h] at this
      exact absurd this (by decide)
  have hnorm := nginx_normalise_quoted q P.data hq hPd
    (fun c hc => (hchars c (List.mem_of_mem_head? hc)).2.1)
  constructor
  · obtain ⟨hhead, hlast, htrim, hpre, hfields⟩ :=
      directive_line "root".data (q :: (P.data ++ [q, ';'])) (by decide) (by simp)
        (by decide) hvalue
    have hcontent : "root " ++ ⟨[q]⟩ ++ P ++ ⟨[q]⟩ ++ ";" =
        ⟨"root".data ++ ' ' :: q :: (P.data ++ [q, ';'])⟩ := by
      apply String.ext
      simp [String.data_append]
    have hnl : ∀ c ∈ "root".data ++ ' ' :: q :: (P.data ++ [q, ';']), c ≠ '\n' := by
      have hkw : ∀ c ∈ "root".data, c ≠ '\n' := by decide
      intro c hc
      rcases List.mem_append.1 hc with hc | hc
      · exact hkw c hc
      · exact hvnl c hc
    unfold extractNginxDocumentRoots
    rw [hroot]
    simp only [foldl_append_flatMap, List.nil_append]
    rw [hcontent, flatMap_split_line nginxDocRootLine nginxDocRootLine_congr (by decide)
      _ hnl hhead hlast]
    unfold nginxDocRootLine
    simp only [htrim]
    have hpre' : HasPrefix ⟨"root".data ++ ' ' :: q :: (P.data ++ [q, ';'])⟩ "root" = true :=
      hpre
    rw [hpre', hfields]
    simp only [if_true, List.length_cons, List.length_nil, Nat.le_refl, List.getD_cons_succ,
      List.getD_cons_zero, Nat.reduceAdd]
    rw [hnorm]
    rfl
  · obtain ⟨hhead, hlast, htrim, hpre, hfields⟩ :=
      directive_line "include".data (q :: (P.data ++ [q, ';'])) (by decide) (by simp)
        (by decide) hvalue
    have hcontent : "include " ++ ⟨[q]⟩ ++ P ++ ⟨[q]⟩ ++ ";" =
        ⟨"include".data ++ ' ' :: q :: (P.data ++ [q, ';'])⟩ := by
      apply String.ext
      simp [String.data_append]
    have hnl : ∀ c ∈ "include".data ++ ' ' :: q :: (P.data ++ [q, ';']), c ≠ '\n' := by
      have hkw : ∀ c ∈ "include".data, c ≠ '\n' := by decide
      intro c hc
      rcases List.mem_append.1 hc with hc | hc
      · exact hkw c hc
      · exact hvnl c hc
    unfold extractNginxIncludeFiles
    rw [hinclude]
    simp only [foldl_append_flatMap, List.nil_append]
    rw [hcontent, flatMap_split_line (nginxIncludeLine w includeFile)
      (nginxIncludeLine_congr w includeFile) (by simp [nginxIncludeLine, TrimSpace, HasPrefix])
      _ hnl hhead hlast]
    rw [nginxIncludeLine_eq]
    unfold nginxIncludeValue
    simp only [htrim]
    have hpre' : HasPrefix ⟨"include".data ++ ' ' :: q :: (P.data ++ [q, ';'])⟩ "include" =
        true := hpre
    rw [hpre', hfields]
    simp only [List.length_cons, List.length_nil, Nat.le_refl, List.getD_cons_succ,
      List.getD_cons_zero, Nat.reduceAdd, decide_True, Bool.and_self, if_true]
    rw [hnorm]
    simp only [Option.toList_some, List.flatMap_cons, List.flatMap_nil, List.append_nil]
    rfl

theorem nginx_quoted_value_keeps_closing_quote_witness :
    extractNginxDocumentRoots quotedNginxHost "/etc/nginx/nginx.conf" = ["/var/www\""] ∧
    extractNginxIncludeFiles quotedNginxHost "/etc/nginx/sites.conf" = [] ∧
    quotedNginxHost.Glob "/var/www" = some ["/var/www"] :=
  have h := nginx_quoted_value_keeps_closing_quote quotedNginxHost "/etc/nginx/nginx.conf"
    "/etc/nginx/sites.conf" "/var/www" '"' (by decide) (by decide) (by decide) (by decide)
    (by decide)
  ⟨h.1, h.2.trans (by decide), by decide⟩

/-- Claim C7, what the code does: a line that holds only the keyword adds
nothing for Apache, Nginx and Caddy, and a Lighttpd line without `=` adds
nothing either, but the Lighttpd line `server.document-root = ` adds the empty
string to the roots, also through `detectLighttpd`. -/
theorem lighttpd_valueless_root_appended :
    extractApacheDocumentRoots (bareWorld.withFile "/etc/apache2/apache2.conf" "DocumentRoot\n")
      "/etc/apache2/apache2.conf" = [] ∧
    extractNginxDocumentRoots (bareWorld.withFile "/etc/nginx/nginx.conf" "  root  \n")
      "/etc/nginx/nginx.conf" = [] ∧
    caddyDocumentRoots (bareWorld.withFile "/etc/caddy/Caddyfile" "root\n")
      "/etc/caddy/Caddyfile" = [] ∧
    lighttpdDocumentRoots (bareWorld.withFile "/etc/lighttpd/lighttpd.conf" "server.document-root\n")
      "/etc/lighttpd/lighttpd.conf" = [] ∧
    lighttpdDocumentRoots (bareWorld.withFile "/etc/lighttpd/lighttpd.conf" "server.document-root = ")
      "/etc/lighttpd/lighttpd.conf" = [""] ∧
    (detectLighttpdExit lighttpdHost).webServer.DocumentRoots = [""] := by
  decide

theorem split_joinLines (ls : List String) (hne : ls ≠ [])
    (hls : ∀ l ∈ ls, ∀ c ∈ l.data, c ≠ '\n') : Split (joinLines ls) '\n' = ls := by
  induction ls with
  | nil => exact absurd rfl hne
  | cons l ls ih =>
    cases ls with
    | nil =>
      unfold Split joinLines
      rw [splitL_no_sep '\n' l.data (hls l (by simp))]
      rfl
    | cons l2 ls =>
      have ih' := ih (by simp) (fun m hm => hls m (by simp [hm]))
      unfold Split at ih' ⊢
      have hdata : (joinLines (l :: l2 :: ls)).data =
          l.data ++ '\n' :: (joinLines (l2 :: ls)).data := by
        rw [joinLines]
        simp [String.data_append]
      rw [hdata, splitL_append_sep '\n' _ _ (hls l (by simp)), List.map_cons, ih']

/-- A line that contributes nothing can be taken out of the file. -/
theorem flatMap_split_remove_line {β : Type} (f : String → List β) (h0 : f "" = [])
    (pre post : List String) (line : String) (hline : f line = [])
    (hlines : ∀ l ∈ pre ++ line :: post, ∀ c ∈ l.data, c ≠ '\n') :
    (Split (joinLines (pre ++ line :: post)) '\n').flatMap f =
      (Split (joinLines (pre ++ post)) '\n').flatMap f := by
  rw [split_joinLines _ (by simp) hlines]
  have hremoved : (Split (joinLines (pre ++ post)) '\n').flatMap f = (pre ++ post).flatMap f := by
    by_cases hne : pre ++ post = []
    · rw [hne]
      have : Split (joinLines []) '\n' = [""] := by decide
      rw [this]
      simp [h0]
    · rw [split_joinLines _ hne (fun l hl => hlines l (by
        rcases List.mem_append.1 hl with h | h
        · exact List.mem_append_left _ h
        · exact List.mem_append_right _ (List.mem_cons_of_mem _ h)))]
  rw [hremoved]
  simp [List.flatMap_append, hline]

/-- Claim C10. An include directive whose glob has no match, or whose pattern the
glob rejects, contributes nothing: the include files of the config are those
of the config without that line, for Apache and for Nginx. -/
theorem empty_glob_include_contributes_nothing (w : World) (configFile : String)
    (pre post : List String) (line value : String)
    (hlines : ∀ l ∈ pre ++ line :: post, ∀ c ∈ l.data, c ≠ '\n') :
    (apacheIncludeValue line = some value →
      (w.Glob (apacheGlobPattern w (resolveInclude w configFile value)) = some [] ∨
        w.Glob (apacheGlobPattern w (resolveInclude w configFile value)) = none) →
      extractApacheIncludeFiles (w.withFile configFile (joinLines (pre ++ line :: post)))
          configFile =
        extractApacheIncludeFiles (w.withFile configFile (joinLines (pre ++ post)))
          configFile) ∧
    (nginxIncludeValue line = some value →
      (w.Glob (resolveInclude w configFile value) = some [] ∨
        w.Glob (resolveInclude w configFile value) = none) →
      extractNginxIncludeFiles (w.withFile configFile (joinLines (pre ++ line :: post)))
          configFile =
        extractNginxIncludeFiles (w.withFile configFile (joinLines (pre ++ post)))
          configFile) := by
  constructor
  · intro hvalue hglob
    have hline : apacheIncludeLine w configFile line = [] := by
      rw [apacheIncludeLine_eq, hvalue]
      rcases hglob with h | h <;> simp [globFiles, h]
    have h0 : apacheIncludeLine w configFile "" = [] := by
      simp [apacheIncludeLine, TrimSpace, HasPrefix]
    have hread : ∀ content, extractApacheIncludeFiles (w.withFile configFile content) configFile =
        (Split content '\n').flatMap (apacheIncludeLine w configFile) := by
      intro content
      simp only [extractApacheIncludeFiles, World.withFile, if_true, foldl_append_flatMap,
        List.nil_append]
      rfl
    rw [hread, hread]
    exact flatMap_split_remove_line _ h0 pre post line hline hlines
  · intro hvalue hglob
    have hline : nginxIncludeLine w configFile line = [] := by
      rw [nginxIncludeLine_eq, hvalue]
      rcases hglob with h | h <;> simp [globFiles, h]
    have h0 : nginxIncludeLine w configFile "" = [] := by
      simp [nginxIncludeLine, TrimSpace, HasPrefix]
    have hread : ∀ content, extractNginxIncludeFiles (w.withFile configFile content) configFile =
        (Split content '\n').flatMap (nginxIncludeLine w configFile) := by
      intro content
      simp only [extractNginxIncludeFiles, World.withFile, if_true, foldl_append_flatMap,
        List.nil_append]
      rfl
    rw [hread, hread]
    exact flatMap_split_remove_line _ h0 pre post line hline hlines

theorem empty_glob_include_contributes_nothing_witness :
    extractApacheIncludeFiles
        (apacheHost.withFile "/etc/apache2/apache2.conf"
          (joinLines (["IncludeOptional sites-enabled"] ++
            "Include mods-enabled/*.load" :: ["Include ports.conf", ""])))
        "/etc/apache2/apache2.conf" =
      extractApacheIncludeFiles
        (apacheHost.withFile "/etc/apache2/apache2.conf"
          (joinLines (["IncludeOptional sites-enabled"] ++ ["Include ports.conf", ""])))
        "/etc/apache2/apache2.conf" ∧
    extractNginxIncludeFiles
        (nginxHost.withFile "/etc/nginx/nginx.conf"
          (joinLines (["include conf.d/*.conf;"] ++
            "include /etc/nginx/none/*.conf;" :: ["include /etc/nginx/sites-enabled/*;"])))
        "/etc/nginx/nginx.conf" =
      extractNginxIncludeFiles
        (nginxHost.withFile "/etc/nginx/nginx.conf"
          (joinLines (["include conf.d/*.conf;"] ++ ["include /etc/nginx/sites-enabled/*;"])))
        "/etc/nginx/nginx.conf" :=
  ⟨(empty_glob_include_contributes_nothing apacheHost "/etc/apache2/apache2.conf"
      ["IncludeOptional sites-enabled"] ["Include ports.conf", ""]
      "Include mods-enabled/*.load" "mods-enabled/*.load" (by decide)).1
      (by decide) (by decide),
    (empty_glob_include_contributes_nothing nginxHost "/etc/nginx/nginx.conf"
      ["include conf.d/*.conf;"] ["include /etc/nginx/sites-enabled/*;"]
      "include /etc/nginx/none/*.conf;" "/etc/nginx/none/*.conf" (by decide)).2
      (by decide) (by decide)⟩

theorem outputOk_systemctl (w : World) (name : String) :
    outputOk w "systemctl" ["is-active", name] (fun o => TrimSpace o == "active") = true ↔
      systemctlActive w name := by
  unfold outputOk systemctlActive
  cases h : w.Output "systemctl" ["is-active", name] with
  | none => simp
  | some o => simp

/-- Claim C12. The result of `findExistingFile` is the empty string when no
listed path exists, and otherwise the listed path that exists and has no
existing path before it in the list. -/
theorem findExistingFile_first_existing (w : World) (paths : List String) :
    ((∀ p ∈ paths, w.Stat p = none) ∧ findExistingFile w paths = "") ∨
    ∃ pre post, paths = pre ++ findExistingFile w paths :: post ∧
      (w.Stat (findExistingFile w paths)).isSome = true ∧ ∀ p ∈ pre, w.Stat p = none := by
  induction paths with
  | nil => exact Or.inl ⟨by simp, rfl⟩
  | cons path rest ih =>
    by_cases h : (w.Stat path).isSome = true
    · refine Or.inr ⟨[], rest, ?_, ?_, by simp⟩
      · simp [findExistingFile, h]
      · simp [findExistingFile, h]
    · have hnone : w.Stat path = none := by
        cases hs : w.Stat path with
        | none => rfl
        | some b => simp [hs] at h
      have hstep : findExistingFile w (path :: rest) = findExistingFile w rest := by
        simp [findExistingFile, hnone]
      rw [hstep]
      rcases ih with ⟨hall, hempty⟩ | ⟨pre, post, hsplit, hex, hpre⟩
      · refine Or.inl ⟨?_, hempty⟩
        intro p hp
        rcases List.mem_cons.1 hp with rfl | hp
        · exact hnone
        · exact hall p hp
      · refine Or.inr ⟨path :: pre, post, ?_, hex, ?_⟩
        · rw [List.cons_append, ← hsplit]
        · intro p hp
          rcases List.mem_cons.1 hp with rfl | hp
          · exact hnone
          · exact hpre p hp

/-- Claim C14. On Linux `getServiceStatus` returns "Running" exactly when one of
the five probes confirms (`systemctl is-active` on the name, then on a
non-empty alternate name, `service <name> status`, `pgrep -x` on the name,
then on a non-empty alternate name), and "Installed but not running"
otherwise. -/
theorem linux_status_chain (w : World) (S A : String) (hlinux : w.GOOS = "linux") :
    (getServiceStatus w S A = "Running" ↔
      (systemctlActive w S ∨ (A ≠ "" ∧ systemctlActive w A) ∨
        w.Run "service" [S, "status"] = true ∨ w.Run "pgrep" ["-x", S] = true ∨
        (A ≠ "" ∧ w.Run "pgrep" ["-x", A] = true))) ∧
    (getServiceStatus w S A ≠ "Running" →
      getServiceStatus w S A = "Installed but not running") := by
  rw [← outputOk_systemctl, ← outputOk_systemctl]
  unfold getServiceStatus
  simp only [hlinux, if_true]
  by_cases h1 : outputOk w "systemctl" ["is-active", S] (fun o => TrimSpace o == "active") = true
  · simp [h1]
  · by_cases hA : A = ""
    · by_cases h3 : w.Run "service" [S, "status"] = true
      · simp [h1, hA, h3]
      · by_cases h4 : w.Run "pgrep" ["-x", S] = true
        · simp [h1, hA, h3, h4]
        · simp [h1, hA, h3, h4]
    · by_cases h2 : outputOk w "systemctl" ["is-active", A]
          (fun o => TrimSpace o == "active") = true
      · simp [h1, hA, h2]
      · by_cases h3 : w.Run "service" [S, "status"] = true
        · simp [h1, hA, h2, h3]
        · by_cases h4 : w.Run "pgrep" ["-x", S] = true
          · simp [h1, hA, h2, h3, h4]
          · by_cases h5 : w.Run "pgrep" ["-x", A] = true
            · simp [h1, hA, h2, h3, h4, h5]
            · simp [h1, hA, h2, h3, h4, h5]

theorem linux_status_chain_witness :
    getServiceStatus nginxHost "nginx" "" = "Running" ∧
    getServiceStatus lighttpdHost "lighttpd" "" = "Installed but not running" :=
  ⟨(linux_status_chain nginxHost "nginx" "" (by decide)).1.2
      (Or.inl ⟨"active\n", by decide, by decide⟩),
    (linux_status_chain lighttpdHost "lighttpd" "" (by decide)).2 (by decide)⟩

theorem getServiceStatus_mem (w : World) (a b : String) :
    getServiceStatus w a b ∈ ["Running", "Installed but not running", "Unknown status"] := by
  unfold getServiceStatus
  split_ifs <;> simp

theorem detectLighttpdExit_present (w : World) (h : w.LookPath "lighttpd" = true) :
    detectLighttpdExit w =
      ⟨{ ServerType := "Lighttpd", Status := getServiceStatus w "lighttpd" "",
         ConfigFile := locateConfig w "lighttpd" (conventionPaths "lighttpd"),
         DocumentRoots :=
           if locateConfig w "lighttpd" (conventionPaths "lighttpd") = "" then []
           else lighttpdDocumentRoots w (locateConfig w "lighttpd" (conventionPaths "lighttpd")) },
        true⟩ := by
  have hp : conventionPaths "lighttpd" =
      ["/etc/lighttpd/lighttpd.conf", "/usr/local/etc/lighttpd/lighttpd.conf"] := by decide
  rw [hp]
  simp only [detectLighttpdExit, h, initialWebServer]
  by_cases hc : locateConfig w "lighttpd"
    ["/etc/lighttpd/lighttpd.conf", "/usr/local/etc/lighttpd/lighttpd.conf"] = "" <;> simp [hc]

theorem detectCaddyExit_present (w : World) (h : w.LookPath "caddy" = true) :
    detectCaddyExit w =
      ⟨{ ServerType := "Caddy", Status := getServiceStatus w "caddy" "",
         ConfigFile := locateConfig w "caddy" (conventionPaths "caddy"),
         DocumentRoots :=
           if locateConfig w "caddy" (conventionPaths "caddy") = "" then []
           else caddyDocumentRoots w (locateConfig w "caddy" (conventionPaths "caddy")) },
        true⟩ := by
  have hp : conventionPaths "caddy" =
      ["/etc/caddy/Caddyfile", "/usr/local/etc/caddy/Caddyfile", "/etc/caddy/caddy.conf"] := by
    decide
  rw [hp]
  simp only [detectCaddyExit, h, initialWebServer]
  by_cases hc : locateConfig w "caddy"
    ["/etc/caddy/Caddyfile", "/usr/local/etc/caddy/Caddyfile", "/etc/caddy/caddy.conf"] = "" <;>
    simp [hc]

theorem apacheConfig_eq (w : World) :
    apacheConfig w = locateConfig w "apache" (conventionPaths "apache") := rfl

theorem nginxConfig_eq (w : World) :
    nginxConfig w = locateConfig w "nginx" (conventionPaths "nginx") := rfl

/-- What each detector contributes: nothing, or one record of its kind whose
status is one of the three that `getServiceStatus` returns. -/
theorem exit_kind_and_status (w : World) :
    ((detectApacheExit w).webServer.ServerType = "Apache" ∧
      ((detectApacheExit w).appended = true →
        (detectApacheExit w).webServer.Status = getServiceStatus w "apache2" "httpd")) ∧
    ((detectNginxExit w).webServer.ServerType = "Nginx" ∧
      ((detectNginxExit w).appended = true →
        (detectNginxExit w).webServer.Status = getServiceStatus w "nginx" "")) ∧
    ((detectLighttpdExit w).webServer.ServerType = "Lighttpd" ∧
      ((detectLighttpdExit w).appended = true →
        (detectLighttpdExit w).webServer.Status = getServiceStatus w "lighttpd" "")) ∧
    ((detectCaddyExit w).webServer.ServerType = "Caddy" ∧
      ((detectCaddyExit w).appended = true →
        (detectCaddyExit w).webServer.Status = getServiceStatus w "caddy" "")) := by
  refine ⟨?_, ?_, ?_, ?_⟩
  · by_cases h : (["apache2", "httpd"].any w.LookPath) = true
    · rw [detectApacheExit_present w h]
      exact ⟨rfl, fun _ => rfl⟩
    · have h' : ∀ n ∈ ["apache2", "httpd"], w.LookPath n = false := by
        simpa using h
      rw [detectApacheExit_absent w h']
      exact ⟨rfl, fun hf => by simp at hf⟩
  · cases h : w.LookPath "nginx"
    · rw [detectNginxExit_absent w h]
      exact ⟨rfl, fun hf => by simp at hf⟩
    · rw [detectNginxExit_present w h]
      exact ⟨rfl, fun _ => rfl⟩
  · cases h : w.LookPath "lighttpd"
    · rw [detectLighttpdExit_absent w h]
      exact ⟨rfl, fun hf => by simp at hf⟩
    · rw [detectLighttpdExit_present w h]
      exact ⟨rfl, fun _ => rfl⟩
  · cases h : w.LookPath "caddy"
    · rw [detectCaddyExit_absent w h]
      exact ⟨rfl, fun hf => by simp at hf⟩
    · rw [detectCaddyExit_present w h]
      exact ⟨rfl, fun _ => rfl⟩

theorem DetectWebServers_eq (w : World) (report : DiscoveryReport) :
    (DetectWebServers w report).WebServers = report.WebServers ++ appendedRecords w := by
  unfold DetectWebServers detectCaddy detectLighttpd detectNginx detectApache commit
    appendedRecords
  cases h1 : (detectApacheExit w).appended <;> cases h2 : (detectNginxExit w).appended <;>
    cases h3 : (detectLighttpdExit w).appended <;> cases h4 : (detectCaddyExit w).appended <;>
    simp [List.filter, h1, h2, h3, h4]

/-- Claim C19. A run of `DetectWebServers` keeps the entries of the report and
appends after them at most one record per kind, in the order Apache, Nginx,
Lighttpd, Caddy; each appended record has one of the three statuses of
`getServiceStatus`, so none is "Not Installed". -/
theorem DetectWebServers_appends_installed_kinds (w : World) (report : DiscoveryReport) :
    ∃ added, (DetectWebServers w report).WebServers = report.WebServers ++ added ∧
      List.Sublist (added.map (fun r => r.ServerType)) ["Apache", "Nginx", "Lighttpd", "Caddy"] ∧
      ∀ r ∈ added,
        r.Status ∈ ["Running", "Installed but not running", "Unknown status"] ∧
          r.Status ≠ "Not Installed" := by
  obtain ⟨⟨ha1, ha2⟩, ⟨hn1, hn2⟩, ⟨hl1, hl2⟩, ⟨hc1, hc2⟩⟩ := exit_kind_and_status w
  refine ⟨appendedRecords w, DetectWebServers_eq w report, ?_, ?_⟩
  · unfold appendedRecords
    cases h1 : (detectApacheExit w).appended <;> cases h2 : (detectNginxExit w).appended <;>
      cases h3 : (detectLighttpdExit w).appended <;> cases h4 : (detectCaddyExit w).appended <;>
      simp [List.filter, h1, h2, h3, h4, ha1, hn1, hl1, hc1]
  · intro r hr
    have hmem : r.Status ∈ ["Running", "Installed but not running", "Unknown status"] := by
      unfold appendedRecords at hr
      simp only [List.mem_map, List.mem_filter, List.mem_cons, List.mem_singleton,
        List.not_mem_nil, or_false] at hr
      obtain ⟨e, ⟨he | he | he | he, happ⟩, rfl⟩ := hr
      · subst he
        rw [ha2 happ]
        exact getServiceStatus_mem w _ _
      · subst he
        rw [hn2 happ]
        exact getServiceStatus_mem w _ _
      · subst he
        rw [hl2 happ]
        exact getServiceStatus_mem w _ _
      · subst he
        rw [hc2 happ]
        exact getServiceStatus_mem w _ _
    refine ⟨hmem, ?_⟩
    intro hni
    rw [hni] at hmem
    exact absurd hmem (by decide)

/-- The config path of an installed kind, in the words of the code: the outcome
of the command strategy, or of `findExistingFile` on the conventional paths
when that outcome is empty. -/
theorem exit_config_locate (w : World)
    (d : List String × String × (World → DetectorExit))
    (hd : d ∈ [(["apache2", "httpd"], "apache", detectApacheExit),
      (["nginx"], "nginx", detectNginxExit),
      (["lighttpd"], "lighttpd", detectLighttpdExit),
      (["caddy"], "caddy", detectCaddyExit)])
    (hinst : ∃ n ∈ d.1, w.LookPath n = true) :
    (d.2.2 w).appended = true ∧
    (d.2.2 w).webServer.ConfigFile =
      (if getWebServerConfigFromCommand w d.2.1 = "" then
        findExistingFile w (conventionPaths d.2.1)
      else getWebServerConfigFromCommand w d.2.1) ∧
    ((d.2.2 w).webServer.ConfigFile = "" → (d.2.2 w).webServer.DocumentRoots = []) := by
  simp only [List.mem_cons, List.mem_singleton, List.not_mem_nil, or_false] at hd
  rcases hd with rfl | rfl | rfl | rfl
  · have h : (["apache2", "httpd"].any w.LookPath) = true := by
      simpa using hinst
    dsimp only
    rw [detectApacheExit_present w h, apacheConfig_eq]
    refine ⟨rfl, rfl, ?_⟩
    intro hc
    simp only at hc
    simp only [hc, if_true]
  · have h : w.LookPath "nginx" = true := by
      simpa using hinst
    dsimp only
    rw [detectNginxExit_present w h, nginxConfig_eq]
    refine ⟨rfl, rfl, ?_⟩
    intro hc
    simp only at hc
    simp only [hc, if_true]
  · have h : w.LookPath "lighttpd" = true := by
      simpa using hinst
    dsimp only
    rw [detectLighttpdExit_present w h]
    refine ⟨rfl, rfl, ?_⟩
    intro hc
    simp only at hc
    simp only [hc, if_true]
  · have h : w.LookPath "caddy" = true := by
      simpa using hinst
    dsimp only
    rw [detectCaddyExit_present w h]
    refine ⟨rfl, rfl, ?_⟩
    intro hc
    simp only at hc
    simp only [hc, if_true]

theorem flatMap_filter_of_nil {α β : Type} (g : α → List β) (p : α → Bool) (l : List α)
    (h : ∀ a ∈ l, p a = false → g a = []) : l.flatMap g = (l.filter p).flatMap g := by
  induction l with
  | nil => rfl
  | cons a as ih =>
    have ih' := ih (fun b hb => h b (List.mem_cons_of_mem _ hb))
    cases hp : p a
    · rw [List.filter_cons_of_neg (by simp [hp]), List.flatMap_cons, h a (by simp) hp,
        List.nil_append, ih']
    · rw [List.filter_cons_of_pos hp, List.flatMap_cons, List.flatMap_cons, ih']

/-- Claim C11. When an included file `F` cannot be read, the `DocumentRoots` of
`detectApache` and of `detectNginx` are the roots of the config followed by
the roots of the included files other than `F`, in their order: the file
contributes nothing and the other files are still read. -/
theorem unreadable_include_contributes_nothing (w : World) (F : String)
    (hF : w.ReadFile F = none) :
    ((detectApacheExit w).webServer.ConfigFile ≠ "" →
      (detectApacheExit w).webServer.DocumentRoots =
        extractApacheDocumentRoots w (detectApacheExit w).webServer.ConfigFile ++
          ((extractApacheIncludeFiles w (detectApacheExit w).webServer.ConfigFile).filter
            (fun f => f != F)).flatMap (extractApacheDocumentRoots w)) ∧
    ((detectNginxExit w).webServer.ConfigFile ≠ "" →
      (detectNginxExit w).webServer.DocumentRoots =
        extractNginxDocumentRoots w (detectNginxExit w).webServer.ConfigFile ++
          ((extractNginxIncludeFiles w (detectNginxExit w).webServer.ConfigFile).filter
            (fun f => f != F)).flatMap (extractNginxDocumentRoots w)) := by
  have hA : extractApacheDocumentRoots w F = [] := by
    simp [extractApacheDocumentRoots, hF]
  have hN : extractNginxDocumentRoots w F = [] := by
    simp [extractNginxDocumentRoots, hF]
  constructor
  · intro hc
    by_cases h : (["apache2", "httpd"].any w.LookPath) = true
    · rw [detectApacheExit_present w h] at hc ⊢
      simp only at hc ⊢
      rw [if_neg hc]
      congr 1
      apply flatMap_filter_of_nil
      intro f _ hf
      have : f = F := by simpa using hf
      rw [this, hA]
    · have h' : ∀ n ∈ ["apache2", "httpd"], w.LookPath n = false := by
        simpa using h
      rw [detectApacheExit_absent w h'] at hc
      exact absurd rfl hc
  · intro hc
    cases h : w.LookPath "nginx"
    · rw [detectNginxExit_absent w h] at hc
      exact absurd rfl hc
    · rw [detectNginxExit_present w h] at hc ⊢
      simp only at hc ⊢
      rw [if_neg hc]
      congr 1
      apply flatMap_filter_of_nil
      intro f _ hf
      have : f = F := by simpa using hf
      rw [this, hN]

theorem unreadable_include_contributes_nothing_witness :
    extractNginxIncludeFiles brokenIncludeHost "/etc/nginx/nginx.conf" =
      ["/etc/nginx/sites/a.conf", "/etc/nginx/sites/b.conf", "/etc/nginx/sites/c.conf"] ∧
    brokenIncludeHost.ReadFile "/etc/nginx/sites/b.conf" = none ∧
    (detectNginxExit brokenIncludeHost).webServer.DocumentRoots =
      ["/srv/main", "/srv/a", "/srv/c"] :=
  ⟨by decide, by decide,
    ((unreadable_include_contributes_nothing brokenIncludeHost "/etc/nginx/sites/b.conf"
      (by decide)).2 (by decide)).trans (by decide)⟩

theorem fieldsL_dropWhile (l : List Char) : fieldsL (l.dropWhile isSpace) = fieldsL l := by
  induction l with
  | nil => rfl
  | cons c cs ih =>
    cases hc : isSpace c
    · rw [List.dropWhile_cons_of_neg (by simp [hc])]
    · rw [List.dropWhile_cons_of_pos hc, ih, fieldsL_space_cons c cs hc]

theorem fieldsL_cons_cons (c d : Char) (r : List Char) (hc : isSpace c = false) :
    fieldsL (c :: d :: r) =
      if isSpace d then [c] :: fieldsL (d :: r)
      else
        match fieldsL (d :: r) with
        | [] => [[c]]
        | f :: fs => (c :: f) :: fs := by
  conv_lhs => rw [fieldsL]
  simp only [hc, Bool.false_eq_true, if_false]

theorem fieldsL_concat_space (l : List Char) (s : Char) (hs : isSpace s = true) :
    fieldsL (l ++ [s]) = fieldsL l := by
  induction l with
  | nil => simp [fieldsL, hs]
  | cons c cs ih =>
    cases hc : isSpace c
    · cases cs with
      | nil => simp [fieldsL, hc, hs]
      | cons d ds =>
        rw [List.cons_append] at ih
        rw [List.cons_append, List.cons_append, fieldsL_cons_cons c d _ hc,
          fieldsL_cons_cons c d _ hc, ih]
    · rw [List.cons_append, fieldsL_space_cons c _ hc, fieldsL_space_cons c _ hc, ih]

theorem fieldsL_rdropWhile (l : List Char) : fieldsL (l.rdropWhile isSpace) = fieldsL l := by
  induction l using List.reverseRecOn with
  | nil => rfl
  | append_singleton xs a ih =>
    rw [List.rdropWhile_concat]
    cases ha : isSpace a
    · simp
    · simp only [if_true]
      rw [ih, fieldsL_concat_space xs a ha]

theorem fields_trimSpace (s : String) : Fields (TrimSpace s) = Fields s := by
  unfold Fields TrimSpace
  show List.map String.mk (fieldsL ((s.data.dropWhile isSpace).rdropWhile isSpace)) = _
  rw [fieldsL_rdropWhile, fieldsL_dropWhile]

theorem caddyDocRootLine_eq (line : String) : caddyDocRootLine line = caddyRootOfLine line := by
  unfold caddyDocRootLine caddyRootOfLine
  simp only [fields_trimSpace]
  by_cases hp : HasPrefix (TrimSpace line) "root" = true
  · simp only [hp, if_true]
    rcases hf : Fields line with _ | ⟨a, _ | ⟨b, rest⟩⟩ <;> simp
  · simp [hp]

/-- Claim C20. When Caddy is installed and its config file is read, the
`DocumentRoots` of `detectCaddy` are, in line order, the second field of every
line whose trimmed text starts with `root` and that has two fields or more,
taken as it stands. -/
theorem caddy_second_field_verbatim (w : World) (content : String)
    (hinst : w.LookPath "caddy" = true)
    (hcfg : (detectCaddyExit w).webServer.ConfigFile ≠ "")
    (hread : w.ReadFile (detectCaddyExit w).webServer.ConfigFile = some content) :
    (detectCaddyExit w).webServer.DocumentRoots =
      (Split content '\n').flatMap caddyRootOfLine := by
  rw [detectCaddyExit_present w hinst] at hcfg hread ⊢
  simp only at hcfg hread ⊢
  rw [if_neg hcfg]
  unfold caddyDocumentRoots
  rw [hread]
  simp only [foldl_append_flatMap, List.nil_append]
  congr 1
  funext line
  exact caddyDocRootLine_eq line

theorem caddy_second_field_verbatim_witness :
    caddyRootOfLine "root * /var/www" = ["*"] ∧ caddyRootOfLine "rootless /x" = ["/x"] ∧
    (detectCaddyExit caddyHost).webServer.ConfigFile = "/etc/caddy/Caddyfile" ∧
    (detectCaddyExit caddyHost).webServer.DocumentRoots = ["*", "/x", "\"/srv/q\""] :=
  ⟨by decide, by decide, by decide,
    (caddy_second_field_verbatim caddyHost
      ("example.com\n\troot * /var/www\n\trootless /x\n\troot\n  root \"/srv/q\" extra\n" ++
        "file_server\n") (by decide) (by decide) (by decide)).trans (by decide)⟩

theorem indexL_first (sub a b : List Char) (i : Nat) (hocc : sub.isPrefixOf b = true)
    (hfirst : ∀ k < a.length, sub.isPrefixOf ((a ++ b).drop k) = false) :
    indexL sub (a ++ b) i = ((i + a.length : Nat) : Int) := by
  induction a generalizing i with
  | nil =>
    cases b with
    | nil =>
      have : sub = [] := by
        cases sub with
        | nil => rfl
        | cons s ss => simp [List.isPrefixOf] at hocc
      simp [indexL, this]
    | cons c cs =>
      simp only [List.nil_append, indexL, hocc, if_true]
      simp
  | cons x xs ih =>
    have h0 : sub.isPrefixOf (x :: (xs ++ b)) = false := hfirst 0 (by simp)
    rw [List.cons_append, indexL, h0]
    simp only [Bool.false_eq_true, if_false]
    rw [ih (i + 1) (fun k hk => hfirst (k + 1) (by simpa using hk))]
    simp only [List.length_cons]
    congr 1
    omega

/-- The offset of a character in a text that does not hold it before. -/
theorem indexL_char (c : Char) (a b : List Char) (ha : ∀ x ∈ a, x ≠ c) :
    indexL [c] (a ++ c :: b) 0 = (a.length : Int) := by
  have h := indexL_first [c] a (c :: b) 0 (by simp [List.isPrefixOf]) (by
    intro k hk
    have hdrop : (a ++ c :: b).drop k = a.drop k ++ c :: b := by
      rw [List.drop_append_of_le_length (Nat.le_of_lt hk)]
    rw [hdrop]
    cases hd : a.drop k with
    | nil =>
      have := List.drop_eq_nil_iff.1 hd
      omega
    | cons y ys =>
      have hy : y ∈ a := List.mem_of_mem_drop (by rw [hd]; simp)
      have := ha y hy
      simp [List.isPrefixOf, Ne.symm this])
  simpa using h

/-- The outcome of the Nginx command strategy on an accepted output, by the
place of the first occurrence of "configuration file ": the text up to the
next space when something stands before the occurrence, nothing when the
output starts with it. -/
theorem nginx_config_by_phrase_offset (w : World) (pre P post : String) (ok : Bool)
    (hP : P ≠ "") (hspace : ∀ c ∈ P.data, c ≠ ' ')
    (hfirst : ∀ k < pre.data.length, "configuration file ".data.isPrefixOf
      ((pre ++ "configuration file " ++ P ++ " " ++ post).data.drop k) = false)
    (hcmd : w.CombinedOutput "nginx" ["-t"] =
      (pre ++ "configuration file " ++ P ++ " " ++ post, ok))
    (haccept : ok = true ∨
      Contains (pre ++ "configuration file " ++ P ++ " " ++ post) "successful" = true) :
    getWebServerConfigFromCommand w "nginx" = if pre = "" then "" else P := by
  have hPd : P.data ≠ [] := fun h => hP (String.ext h)
  have hdata : (pre ++ "configuration file " ++ P ++ " " ++ post).data =
      pre.data ++ ("configuration file ".data ++ (P.data ++ ' ' :: post.data)) := by
    simp [String.data_append]
  have hidx : Index (pre ++ "configuration file " ++ P ++ " " ++ post) "configuration file " =
      (pre.data.length : Int) := by
    unfold Index
    rw [hdata] at hfirst ⊢
    have h := indexL_first "configuration file ".data pre.data
      ("configuration file ".data ++ (P.data ++ ' ' :: post.data)) 0
      (isPrefixOf_append _ _) hfirst
    simpa using h
  have hrest : sliceFrom (pre ++ "configuration file " ++ P ++ " " ++ post)
      (pre.data.length + "configuration file ".length) = ⟨P.data ++ ' ' :: post.data⟩ := by
    unfold sliceFrom
    rw [hdata, ← List.append_assoc, List.drop_left' (by rw [List.length_append]; rfl)]
  have hend : Index ⟨P.data ++ ' ' :: post.data⟩ " " = (P.data.length : Int) :=
    indexL_char ' ' P.data post.data hspace
  have hlen : 0 < P.data.length := List.length_pos.2 hPd
  unfold getWebServerConfigFromCommand
  simp only [if_true, hcmd]
  have hacc : (ok || Contains (pre ++ "configuration file " ++ P ++ " " ++ post) "successful") =
      true := by
    rcases haccept with h | h <;> simp [h]
  rw [hacc, hidx]
  simp only [if_true, Int.toNat_ofNat, hrest, hend]
  by_cases hpre : pre = ""
  · subst hpre
    simp
  · have hpd : pre.data ≠ [] := fun h => hpre (String.ext h)
    have hpl : 0 < pre.data.length := List.length_pos.2 hpd
    simp only [hpre, if_false]
    rw [if_pos (by exact_mod_cast hpl), if_pos (by exact_mod_cast hlen)]
    unfold slice
    simp

theorem indexL_lower (sub a b : List Char) (i : Nat) (hocc : sub.isPrefixOf b = true) :
    (i : Int) ≤ indexL sub (a ++ b) i := by
  induction a generalizing i with
  | nil =>
    have h := indexL_first sub [] b i hocc (by simp)
    simp only [List.nil_append, List.length_nil, Nat.add_zero] at h ⊢
    rw [h]
  | cons x xs ih =>
    rw [List.cons_append, indexL]
    split_ifs
    · exact le_refl _
    · have := ih (i + 1)
      omega

theorem extractValueFromLines_skip (key : String) (before rest : List String)
    (h : ∀ l ∈ before, Contains l key = false) :
    extractValueFromLines key (before ++ rest) = extractValueFromLines key rest := by
  induction before with
  | nil => rfl
  | cons l ls ih =>
    have hl : Contains l key = false := h l (by simp)
    rw [List.cons_append, extractValueFromLines]
    simp only [hl, Bool.false_eq_true, if_false]
    exact ih (fun m hm => h m (by simp [hm]))

/-- The value `extractValueFromApacheOutput` gives when the lines before hold
no occurrence of the key and one line holds `key="F"`: `F` when something
stands before the key on that line, and the outcome of the later lines when
the line starts with the key. -/
theorem apache_value_by_key_offset (key pre F post : String)
    (before after : List String)
    (hF : F ≠ "") (hquote : ∀ c ∈ F.data, c ≠ '"')
    (hlines : ∀ l ∈ before ++ (pre ++ key ++ "=\"" ++ F ++ "\"" ++ post) :: after,
      ∀ c ∈ l.data, c ≠ '\n')
    (hbefore : ∀ l ∈ before, Contains l key = false)
    (hfirst : ∀ k < pre.data.length, (key ++ "=\"").data.isPrefixOf
      ((pre ++ key ++ "=\"" ++ F ++ "\"" ++ post).data.drop k) = false) :
    extractValueFromApacheOutput
        (joinLines (before ++ (pre ++ key ++ "=\"" ++ F ++ "\"" ++ post) :: after)) key =
      if pre = "" then extractValueFromLines key after else F := by
  have hFd : F.data ≠ [] := fun h => hF (String.ext h)
  have hlen : 0 < F.data.length := List.length_pos.2 hFd
  have hdata : (pre ++ key ++ "=\"" ++ F ++ "\"" ++ post).data =
      pre.data ++ ((key ++ "=\"").data ++ (F.data ++ '"' :: post.data)) := by
    simp [String.data_append]
  have hidx : Index (pre ++ key ++ "=\"" ++ F ++ "\"" ++ post) (key ++ "=\"") =
      (pre.data.length : Int) := by
    unfold Index
    rw [hdata] at hfirst ⊢
    have h := indexL_first (key ++ "=\"").data pre.data
      ((key ++ "=\"").data ++ (F.data ++ '"' :: post.data)) 0 (isPrefixOf_append _ _) hfirst
    simpa using h
  have hcontains : Contains (pre ++ key ++ "=\"" ++ F ++ "\"" ++ post) key = true := by
    unfold Contains Index
    have hd2 : (pre ++ key ++ "=\"" ++ F ++ "\"" ++ post).data =
        pre.data ++ (key.data ++ ('=' :: '"' :: (F.data ++ '"' :: post.data))) := by
      simp [String.data_append]
    rw [hd2]
    have := indexL_lower key.data pre.data
      (key.data ++ ('=' :: '"' :: (F.data ++ '"' :: post.data))) 0 (isPrefixOf_append _ _)
    simpa using this
  have hrest : sliceFrom (pre ++ key ++ "=\"" ++ F ++ "\"" ++ post)
      (pre.data.length + key.length + 2) = ⟨F.data ++ '"' :: post.data⟩ := by
    unfold sliceFrom
    rw [hdata, ← List.append_assoc, List.drop_left' (by
      rw [List.length_append, String.data_append, List.length_append, String.length]
      rfl)]
  have hend : Index ⟨F.data ++ '"' :: post.data⟩ "\"" = (F.data.length : Int) :=
    indexL_char '"' F.data post.data hquote
  have hslice : slice (pre ++ key ++ "=\"" ++ F ++ "\"" ++ post)
      (pre.data.length + key.length + 2) (pre.data.length + key.length + 2 + F.data.length) =
      F := by
    have h := congrArg String.data hrest
    unfold sliceFrom at h
    simp only at h
    unfold slice
    rw [h]
    apply String.ext
    simp
  unfold extractValueFromApacheOutput
  rw [split_joinLines _ (by simp) hlines, extractValueFromLines_skip key before _ hbefore,
    extractValueFromLines]
  simp only [hcontains, if_true, hidx, Int.toNat_ofNat, hrest, hend]
  by_cases hpre : pre = ""
  · subst hpre
    simp
  · have hpd : pre.data ≠ [] := fun h => hpre (String.ext h)
    have hpl : 0 < pre.data.length := List.length_pos.2 hpd
    simp only [hpre, if_false]
    rw [if_pos (by exact_mod_cast hpl), if_pos (by exact_mod_cast hlen), hslice]

/-! ## Lemmas on the Unix path functions -/

theorem splitL_dir_name (dir name : List Char) (hname : ∀ c ∈ name, c ≠ '/') :
    ∃ init, splitL '/' (dir ++ '/' :: name) = init ++ [name] := by
  obtain ⟨as, x, y, bs, _, h2, h3⟩ := splitL_append '/' dir ('/' :: name)
  rw [splitL_cons_sep, splitL_no_sep '/' name hname] at h2
  simp only [List.cons.injEq] at h2
  obtain ⟨rfl, rfl⟩ := h2
  exact ⟨as ++ [x ++ []], by rw [h3]; simp⟩

theorem cleanParts_last (rooted : Bool) (c : List Char)
    (h1 : c ≠ []) (h2 : c ≠ ['.']) (h3 : c ≠ ['.', '.']) :
    ∀ (init out : List (List Char)), ∃ acc, cleanParts rooted (init ++ [c]) out = acc ++ [c] := by
  intro init
  induction init with
  | nil =>
    intro out
    refine ⟨out.reverse, ?_⟩
    simp [cleanParts, h1, h2, h3]
  | cons x xs ih =>
    intro out
    rw [List.cons_append, cleanParts.eq_def]
    simp only
    repeat' first | exact ih _ | split

theorem intercalate_go_last (s : String) :
    ∀ (l : List String) (acc c : String),
      ∃ p, (String.intercalate.go acc s (l ++ [c])).data = p ++ c.data := by
  intro l
  induction l with
  | nil =>
    intro acc c
    exact ⟨acc.data ++ s.data, by simp [String.intercalate.go, String.data_append]⟩
  | cons a as ih =>
    intro acc c
    rw [List.cons_append, String.intercalate.go]
    exact ih _ c

theorem intercalate_last (s : String) (l : List String) (c : String) :
    ∃ p, (s.intercalate (l ++ [c])).data = p ++ c.data := by
  cases l with
  | nil => exact ⟨[], by simp [String.intercalate, String.intercalate.go]⟩
  | cons a as =>
    rw [List.cons_append, String.intercalate]
    exact intercalate_go_last s as a c

/-- Cleaning a path whose last component is a plain name keeps that name at
the end. -/
theorem unixClean_last (path : String) (init : List (List Char)) (name : List Char)
    (hsplit : splitL '/' path.data = init ++ [name])
    (h1 : name ≠ []) (h2 : name ≠ ['.']) (h3 : name ≠ ['.', '.']) :
    ∃ p, (unixClean path).data = p ++ name := by
  obtain ⟨acc, hacc⟩ := cleanParts_last (HasPrefix path "/") name h1 h2 h3 init []
  obtain ⟨p, hp⟩ := intercalate_last "/" (acc.map String.mk) ⟨name⟩
  unfold unixClean
  simp only [hsplit, hacc, List.map_append, List.map_cons, List.map_nil]
  by_cases hr : HasPrefix path "/" = true
  · refine ⟨'/' :: p, ?_⟩
    have hne : "/" ++ "/".intercalate (List.map String.mk acc ++ [⟨name⟩]) ≠ "" := by
      intro h
      have := congrArg String.data h
      simp [String.data_append] at this
    simp only [hr, if_true, hne, if_false, String.data_append, hp]
    simp
  · refine ⟨p, ?_⟩
    have hne : "/".intercalate (List.map String.mk acc ++ [⟨name⟩]) ≠ "" := by
      intro h
      have := congrArg String.data h
      rw [hp] at this
      simp [h1] at this
    simp only [hr, Bool.false_eq_true, if_false, hne, hp]

/-- Unix `filepath.Join` keeps a plain file name at the end of its result. -/
theorem unixJoin_keeps_name (dir name : String) (hsep : ∀ c ∈ name.data, c ≠ '/')
    (h1 : name.data ≠ []) (h2 : name.data ≠ ['.']) (h3 : name.data ≠ ['.', '.']) :
    ∃ p, (unixJoin dir name).data = p ++ name.data := by
  have hname : name ≠ "" := fun h => h1 (by rw [h])
  unfold unixJoin
  by_cases hd : dir = ""
  · simp only [hd, bne_self_eq_false, Bool.false_eq_true, if_false, bne_iff_ne, ne_eq, hname,
      not_false_eq_true, if_true]
    exact unixClean_last name [] name.data (splitL_no_sep '/' name.data hsep) h1 h2 h3
  · simp only [bne_iff_ne, ne_eq, hd, not_false_eq_true, if_true]
    obtain ⟨init, hinit⟩ := splitL_dir_name dir.data name.data hsep
    exact unixClean_last (dir ++ "/" ++ name) init name.data
      (by simpa [String.data_append] using hinit) h1 h2 h3

/-- On Unix the two compose file paths are never one of the sentinels. -/
theorem unixJoin_compose_not_sentinel (dir name : String)
    (hname : name ∈ ["docker-compose.yml", "docker-compose.yaml"]) :
    unixJoin dir name ≠ "-" ∧ unixJoin dir name ≠ "unknown" := by
  have hlen : ∃ p, (unixJoin dir name).data = p ++ name.data ∧ 18 ≤ name.data.length := by
    simp only [List.mem_cons, List.mem_singleton, List.not_mem_nil, or_false] at hname
    rcases hname with rfl | rfl
    · obtain ⟨p, hp⟩ := unixJoin_keeps_name dir "docker-compose.yml" (by decide) (by decide)
        (by decide) (by decide)
      exact ⟨p, hp, by decide⟩
    · obtain ⟨p, hp⟩ := unixJoin_keeps_name dir "docker-compose.yaml" (by decide) (by decide)
        (by decide) (by decide)
      exact ⟨p, hp, by decide⟩
  obtain ⟨p, hp, hl⟩ := hlen
  have hlong : 18 ≤ (unixJoin dir name).data.length := by
    rw [hp, List.length_append]
    omega
  constructor
  · intro h
    rw [h] at hlong
    exact absurd hlong (by decide)
  · intro h
    rw [h] at hlong
    exact absurd hlong (by decide)

/-! ## Lemmas on the container detector -/

theorem foldl_append_map {α β : Type} (f : α → β) (l : List α) (init : List β) :
    l.foldl (fun acc x => acc ++ [f x]) init = init ++ l.map f := by
  induction l generalizing init with
  | nil => simp
  | cons x xs ih => simp [ih, List.append_assoc]

theorem inspectBasics_id (w : World) (containerID : String) :
    (inspectBasics w containerID).ContainerID = containerID := by
  unfold inspectBasics
  simp only
  repeat' split
  all_goals rfl

theorem inspectCompose_id (w : World) (containerID : String) (container : DockerContainer) :
    (inspectCompose w containerID container).ContainerID = container.ContainerID := by
  unfold inspectCompose
  simp only
  repeat' split
  all_goals rfl

theorem inspectContainer_id (w : World) (containerID : String) :
    (inspectContainer w containerID).ContainerID = containerID := by
  unfold inspectContainer
  rw [inspectCompose_id, inspectBasics_id]

/-- Every record the detector adds is the record of one container id. -/
theorem DetectDockerContainers_new (w : World) (dockerContainers : List DockerContainer) :
    ∀ r ∈ (DetectDockerContainers w dockerContainers).drop dockerContainers.length,
      r = inspectContainer w r.ContainerID := by
  intro r hr
  unfold DetectDockerContainers at hr
  split_ifs at hr with h1 h2
  · simp at hr
  · simp at hr
  · split at hr
    · simp at hr
    · rw [foldl_append_map, List.drop_left] at hr
      obtain ⟨id, _, rfl⟩ := List.mem_map.1 hr
      rw [inspectContainer_id]

/-- The compose fields of a record, by the labels and the working directory
lookup of its container. -/
theorem inspectContainer_compose (w : World) (containerID : String) :
    (composeProjectLabel w containerID = "" ∧ composeServiceLabel w containerID = "" →
      (inspectContainer w containerID).ManagedBy = "standalone" ∧
      (inspectContainer w containerID).ComposeProject = "-" ∧
      (inspectContainer w containerID).ComposeService = "-" ∧
      (inspectContainer w containerID).ComposeFile = "-") ∧
    (¬ (composeProjectLabel w containerID = "" ∧ composeServiceLabel w containerID = "") →
      (inspectContainer w containerID).ManagedBy = "docker-compose" ∧
      (inspectContainer w containerID).ComposeProject = composeProjectLabel w containerID ∧
      (inspectContainer w containerID).ComposeService = composeServiceLabel w containerID ∧
      (workingDirLookup w containerID = none →
        (inspectContainer w containerID).ComposeFile = "unknown") ∧
      (∀ out, workingDirLookup w containerID = some out →
        (inspectContainer w containerID).ComposeFile ∈
          [w.Join (TrimSpace out) "docker-compose.yml",
           w.Join (TrimSpace out) "docker-compose.yaml"])) := by
  unfold inspectContainer inspectCompose
  simp only
  change (composeProjectLabel w containerID = "" ∧ composeServiceLabel w containerID = "" → _) ∧
    (¬ (composeProjectLabel w containerID = "" ∧ composeServiceLabel w containerID = "") → _)
  constructor
  · rintro ⟨hp, hs⟩
    unfold composeProjectLabel at hp
    unfold composeServiceLabel at hs
    simp [hp, hs]
  · intro hne
    have hcond : (composeProjectLabel w containerID != "" ||
        composeServiceLabel w containerID != "") = true := by
      by_cases hp : composeProjectLabel w containerID = ""
      · have hs : composeServiceLabel w containerID ≠ "" := fun hs => hne ⟨hp, hs⟩
        simp [hs]
      · simp [hp]
    unfold composeProjectLabel composeServiceLabel at hcond
    unfold workingDirLookup
    rw [if_pos hcond]
    cases hwd : w.Output "docker"
      (inspectArgs (labelFormat "com.docker.compose.project.working_dir") containerID) with
    | none => simp [composeProjectLabel, composeServiceLabel]
    | some out =>
      simp only [composeProjectLabel, composeServiceLabel]
      split_ifs <;> simp

/-- Claim C15. A record added by `DetectDockerContainers` whose container has
both compose labels empty after trimming is "standalone" with the three
compose fields set to "-", and a record whose container has one of the labels
non-empty is managed by "docker-compose". -/
theorem standalone_containers_carry_dash (w : World)
    (dockerContainers : List DockerContainer) (r : DockerContainer)
    (hr : r ∈ (DetectDockerContainers w dockerContainers).drop dockerContainers.length) :
    (composeProjectLabel w r.ContainerID = "" ∧ composeServiceLabel w r.ContainerID = "" →
      r.ManagedBy = "standalone" ∧ r.ComposeProject = "-" ∧ r.ComposeService = "-" ∧
        r.ComposeFile = "-") ∧
    (composeProjectLabel w r.ContainerID ≠ "" ∨ composeServiceLabel w r.ContainerID ≠ "" →
      r.ManagedBy = "docker-compose") := by
  have hrec := DetectDockerContainers_new w dockerContainers r hr
  have h := inspectContainer_compose w r.ContainerID
  rw [← hrec] at h
  refine ⟨h.1, ?_⟩
  intro hne
  refine (h.2 ?_).1
  rintro ⟨hp, hs⟩
  rcases hne with hne | hne
  · exact hne hp
  · exact hne hs

theorem standalone_containers_carry_dash_witness :
    ((inspectContainer dockerHost "aaa111").ManagedBy = "standalone" ∧
      (inspectContainer dockerHost "aaa111").ComposeProject = "-" ∧
      (inspectContainer dockerHost "aaa111").ComposeService = "-" ∧
      (inspectContainer dockerHost "aaa111").ComposeFile = "-") ∧
    (inspectContainer dockerHost "bbb222").ManagedBy = "docker-compose" :=
  ⟨(standalone_containers_carry_dash dockerHost [] (inspectContainer dockerHost "aaa111")
      (by decide)).1 ⟨by decide, by decide⟩,
    (standalone_containers_carry_dash dockerHost [] (inspectContainer dockerHost "bbb222")
      (by decide)).2 (Or.inl (by decide))⟩

/-- The records a detector adds to a report: nothing, or its record. -/
theorem commit_added (e : DetectorExit) (report : DiscoveryReport) :
    (commit e report).WebServers.drop report.WebServers.length =
      if e.appended then [e.webServer] else [] := by
  unfold commit
  cases e.appended <;> simp

/-- Claim C1. For every record that `detectApache`, `detectNginx`,
`detectLighttpd` or `detectCaddy` adds to the report, whatever the probes
answer: if its `Status` is "Not Installed" then its `ConfigFile` is empty and
it has no `DocumentRoots`. No added record has that status: the status of an
added record is one of the three results of `getServiceStatus`, since the
not-installed return of each detector adds nothing. -/
theorem appended_record_notInstalled_has_no_config (w : World) (report : DiscoveryReport)
    (d : World → DiscoveryReport → DiscoveryReport)
    (hd : d ∈ [detectApache, detectNginx, detectLighttpd, detectCaddy]) (r : WebServer)
    (hr : r ∈ (d w report).WebServers.drop report.WebServers.length) :
    (r.Status = "Not Installed" → r.ConfigFile = "" ∧ r.DocumentRoots = []) ∧
      r.Status ∈ ["Running", "Installed but not running", "Unknown status"] := by
  obtain ⟨⟨_, ha⟩, ⟨_, hn⟩, ⟨_, hl⟩, ⟨_, hc⟩⟩ := exit_kind_and_status w
  have hmem : r.Status ∈ ["Running", "Installed but not running", "Unknown status"] := by
    simp only [List.mem_cons, List.mem_singleton, List.not_mem_nil, or_false] at hd
    rcases hd with rfl | rfl | rfl | rfl
    · unfold detectApache at hr
      rw [commit_added] at hr
      by_cases happ : (detectApacheExit w).appended = true
      · rw [if_pos happ, List.mem_singleton] at hr
        rw [hr, ha happ]
        exact getServiceStatus_mem w _ _
      · rw [if_neg happ] at hr
        exact absurd hr (List.not_mem_nil r)
    · unfold detectNginx at hr
      rw [commit_added] at hr
      by_cases happ : (detectNginxExit w).appended = true
      · rw [if_pos happ, List.mem_singleton] at hr
        rw [hr, hn happ]
        exact getServiceStatus_mem w _ _
      · rw [if_neg happ] at hr
        exact absurd hr (List.not_mem_nil r)
    · unfold detectLighttpd at hr
      rw [commit_added] at hr
      by_cases happ : (detectLighttpdExit w).appended = true
      · rw [if_pos happ, List.mem_singleton] at hr
        rw [hr, hl happ]
        exact getServiceStatus_mem w _ _
      · rw [if_neg happ] at hr
        exact absurd hr (List.not_mem_nil r)
    · unfold detectCaddy at hr
      rw [commit_added] at hr
      by_cases happ : (detectCaddyExit w).appended = true
      · rw [if_pos happ, List.mem_singleton] at hr
        rw [hr, hc happ]
        exact getServiceStatus_mem w _ _
      · rw [if_neg happ] at hr
        exact absurd hr (List.not_mem_nil r)
  refine ⟨?_, hmem⟩
  intro hni
  rw [hni] at hmem
  exact absurd hmem (by decide)

theorem appended_record_notInstalled_has_no_config_witness :
    (detectNginx nginxHost ⟨[]⟩).WebServers =
      [⟨"Nginx", "Running", "/etc/nginx/nginx.conf",
        ["/usr/share/nginx/html", "/srv/a", "/srv/b", "/var/www/html"]⟩] ∧
    (detectNginx bareWorld ⟨[]⟩).WebServers = [] ∧
    (("Running" = "Not Installed" →
        "/etc/nginx/nginx.conf" = "" ∧
          ["/usr/share/nginx/html", "/srv/a", "/srv/b", "/var/www/html"] = ([] : List String)) ∧
      "Running" ∈ ["Running", "Installed but not running", "Unknown status"]) :=
  ⟨by decide, by decide,
    appended_record_notInstalled_has_no_config nginxHost ⟨[]⟩ detectNginx (by simp)
      ⟨"Nginx", "Running", "/etc/nginx/nginx.conf",
        ["/usr/share/nginx/html", "/srv/a", "/srv/b", "/var/www/html"]⟩ (by decide)⟩

/-- The result of `findExistingFile` splits the list at the first path that
exists. -/
theorem findExistingFile_split (w : World) (paths : List String) :
    ((∀ p ∈ paths, w.Stat p = none) ∧ findExistingFile w paths = "") ∨
    ∃ pre post, paths = pre ++ findExistingFile w paths :: post ∧
      (w.Stat (findExistingFile w paths)).isSome = true ∧ ∀ p ∈ pre, w.Stat p = none := by
  induction paths with
  | nil => exact Or.inl ⟨by simp, rfl⟩
  | cons path rest ih =>
    cases hs : w.Stat path with
    | some b =>
      have hres : findExistingFile w (path :: rest) = path := by
        simp [findExistingFile, hs]
      rw [hres]
      exact Or.inr ⟨[], rest, rfl, by simp [hs], by simp⟩
    | none =>
      have hstep : findExistingFile w (path :: rest) = findExistingFile w rest := by
        simp [findExistingFile, hs]
      rw [hstep]
      rcases ih with ⟨hall, hempty⟩ | ⟨pre, post, hsplit, hex, hpre⟩
      · refine Or.inl ⟨?_, hempty⟩
        intro p hp
        rcases List.mem_cons.1 hp with rfl | hp
        · exact hs
        · exact hall p hp
      · refine Or.inr ⟨path :: pre, post, ?_, hex, ?_⟩
        · rw [List.cons_append, ← hsplit]
        · intro p hp
          rcases List.mem_cons.1 hp with rfl | hp
          · exact hs
          · exact hpre p hp

/-- Claim C13. For each kind found installed the record is appended. Its
`ConfigFile` is the result of the command strategy when that is not empty.
Otherwise it is the conventional path of the kind that exists and has no
existing path before it in the list, or the empty string when no conventional
path exists. An empty `ConfigFile` comes with no `DocumentRoots`. -/
theorem config_path_command_then_first_existing (w : World)
    (d : List String × String × (World → DetectorExit))
    (hd : d ∈ [(["apache2", "httpd"], "apache", detectApacheExit),
      (["nginx"], "nginx", detectNginxExit),
      (["lighttpd"], "lighttpd", detectLighttpdExit),
      (["caddy"], "caddy", detectCaddyExit)])
    (hinst : ∃ n ∈ d.1, w.LookPath n = true) :
    (d.2.2 w).appended = true ∧
    (getWebServerConfigFromCommand w d.2.1 ≠ "" →
      (d.2.2 w).webServer.ConfigFile = getWebServerConfigFromCommand w d.2.1) ∧
    (getWebServerConfigFromCommand w d.2.1 = "" →
      ((∀ p ∈ conventionPaths d.2.1, w.Stat p = none) ∧ (d.2.2 w).webServer.ConfigFile = "") ∨
      ∃ pre post, conventionPaths d.2.1 = pre ++ (d.2.2 w).webServer.ConfigFile :: post ∧
        (w.Stat (d.2.2 w).webServer.ConfigFile).isSome = true ∧ ∀ p ∈ pre, w.Stat p = none) ∧
    ((d.2.2 w).webServer.ConfigFile = "" → (d.2.2 w).webServer.DocumentRoots = []) := by
  obtain ⟨happ, hcfg, hroots⟩ := exit_config_locate w d hd hinst
  refine ⟨happ, ?_, ?_, hroots⟩
  · intro hcmd
    rw [hcfg, if_neg hcmd]
  · intro hcmd
    rw [hcfg, if_pos hcmd]
    exact findExistingFile_split w (conventionPaths d.2.1)

theorem config_path_command_then_first_existing_witness :
    (getWebServerConfigFromCommand conventionNginxHost "nginx" = "" ∧
      conventionNginxHost.Stat "/etc/nginx/nginx.conf" = none ∧
      (detectNginxExit conventionNginxHost).webServer.ConfigFile =
        "/usr/local/etc/nginx/nginx.conf" ∧
      (((∀ p ∈ conventionPaths "nginx", conventionNginxHost.Stat p = none) ∧
          (detectNginxExit conventionNginxHost).webServer.ConfigFile = "") ∨
        ∃ pre post, conventionPaths "nginx" =
            pre ++ (detectNginxExit conventionNginxHost).webServer.ConfigFile :: post ∧
          (conventionNginxHost.Stat
            (detectNginxExit conventionNginxHost).webServer.ConfigFile).isSome = true ∧
          ∀ p ∈ pre, conventionNginxHost.Stat p = none)) ∧
    (findExistingFile customApacheHost (conventionPaths "apache") = "/etc/apache2/apache2.conf" ∧
      getWebServerConfigFromCommand customApacheHost "apache" = "/opt/apache/conf/httpd.conf" ∧
      (detectApacheExit customApacheHost).webServer.ConfigFile =
        getWebServerConfigFromCommand customApacheHost "apache") ∧
    ((detectCaddyExit caddyOnlyHost).appended = true ∧
      (detectCaddyExit caddyOnlyHost).webServer.ConfigFile = "" ∧
      (detectCaddyExit caddyOnlyHost).webServer.DocumentRoots = []) :=
  have hn := config_path_command_then_first_existing conventionNginxHost
    (["nginx"], "nginx", detectNginxExit) (by simp) ⟨"nginx", by simp, by decide⟩
  have ha := config_path_command_then_first_existing customApacheHost
    (["apache2", "httpd"], "apache", detectApacheExit) (by simp) ⟨"apache2", by simp, by decide⟩
  have hc := config_path_command_then_first_existing caddyOnlyHost
    (["caddy"], "caddy", detectCaddyExit) (by simp) ⟨"caddy", by simp, by decide⟩
  ⟨⟨by decide, by decide, by decide, hn.2.2.1 (by decide)⟩,
    ⟨by decide, by decide, ha.2.1 (by decide)⟩,
    ⟨hc.1, by decide, hc.2.2.2 (by decide)⟩⟩

/-- The compose file of a compose-managed container whose working directory
was read. -/
theorem inspectContainer_composeFile (w : World) (containerID out : String)
    (hlabels : ¬ (composeProjectLabel w containerID = "" ∧
      composeServiceLabel w containerID = ""))
    (hwd : workingDirLookup w containerID = some out) :
    (inspectContainer w containerID).ComposeFile = composeFilePath w (TrimSpace out) := by
  have hcond : (composeProjectLabel w containerID != "" ||
      composeServiceLabel w containerID != "") = true := by
    by_cases hp : composeProjectLabel w containerID = ""
    · have hs : composeServiceLabel w containerID ≠ "" := fun hs => hlabels ⟨hp, hs⟩
      simp [hs]
    · simp [hp]
  unfold composeProjectLabel composeServiceLabel at hcond
  unfold workingDirLookup at hwd
  unfold inspectContainer inspectCompose composeFilePath
  simp only
  rw [if_pos hcond, hwd]
  simp only
  cases h1 : (w.Stat (w.Join (TrimSpace out) "docker-compose.yml")).isNone <;>
    cases h2 : w.StatNotExist (w.Join (TrimSpace out) "docker-compose.yml") <;>
    cases h3 : (w.Stat (w.Join (TrimSpace out) "docker-compose.yaml")).isSome <;>
    simp [h3]

/-- Claim C16 as stated fails: on a host with two compose-managed containers,
one whose working directory holds neither compose file and one whose working
directory label is empty, the lookup of a compose file finds nothing, yet
`ComposeFile` is the path of a file that does not exist, not "unknown". -/
theorem compose_file_not_found_is_not_unknown :
    inspectContainer composeMissingHost "ddd444" ∈ DetectDockerContainers composeMissingHost [] ∧
    (inspectContainer composeMissingHost "ddd444").ManagedBy = "docker-compose" ∧
    composeMissingHost.Stat "/srv/blog/docker-compose.yml" = none ∧
    composeMissingHost.Stat "/srv/blog/docker-compose.yaml" = none ∧
    (inspectContainer composeMissingHost "ddd444").ComposeFile =
      "/srv/blog/docker-compose.yml" ∧
    (inspectContainer composeMissingHost "ddd444").ComposeFile ≠ "unknown" ∧
    inspectContainer composeMissingHost "eee555" ∈ DetectDockerContainers composeMissingHost [] ∧
    (inspectContainer composeMissingHost "eee555").ManagedBy = "docker-compose" ∧
    (inspectContainer composeMissingHost "eee555").ComposeFile = "docker-compose.yml" := by
  decide

/-- Claim C16, amended. Provided `filepath.Join` never turns a compose file
name into one of the sentinels, a record added by `DetectDockerContainers` has
`ComposeFile` "-" exactly when it is standalone, and "unknown" exactly when it
is compose-managed and the command that reads the working directory label
failed. A compose-managed record whose command succeeded carries the path of
`docker-compose.yml` in that directory, or of `docker-compose.yaml` when the
former does not exist and the latter does, and this path is neither
sentinel. -/
theorem compose_file_sentinels (w : World)
    (dockerContainers : List DockerContainer) (r : DockerContainer)
    (hjoin : ∀ dir, ∀ name ∈ ["docker-compose.yml", "docker-compose.yaml"],
      w.Join dir name ≠ "-" ∧ w.Join dir name ≠ "unknown")
    (hr : r ∈ (DetectDockerContainers w dockerContainers).drop dockerContainers.length) :
    (r.ComposeFile = "-" ↔ r.ManagedBy = "standalone") ∧
    (r.ComposeFile = "unknown" ↔
      r.ManagedBy = "docker-compose" ∧ workingDirLookup w r.ContainerID = none) ∧
    (∀ out, r.ManagedBy = "docker-compose" → workingDirLookup w r.ContainerID = some out →
      r.ComposeFile = composeFilePath w (TrimSpace out) ∧
        r.ComposeFile ≠ "-" ∧ r.ComposeFile ≠ "unknown") := by
  have hrec := DetectDockerContainers_new w dockerContainers r hr
  have h := inspectContainer_compose w r.ContainerID
  have hfile := inspectContainer_composeFile w r.ContainerID
  rw [← hrec] at h hfile
  by_cases hlabels : composeProjectLabel w r.ContainerID = "" ∧
      composeServiceLabel w r.ContainerID = ""
  · obtain ⟨hm, _, _, hf⟩ := h.1 hlabels
    rw [hm, hf]
    refine ⟨by simp, ?_, ?_⟩
    · constructor
      · intro hc
        exact absurd hc (by decide)
      · rintro ⟨hc, _⟩
        exact absurd hc (by decide)
    · intro _ hc
      exact absurd hc (by decide)
  · obtain ⟨hm, _, _, hnone, hsome⟩ := h.2 hlabels
    rw [hm]
    cases hwd : workingDirLookup w r.ContainerID with
    | none =>
      rw [hnone hwd]
      refine ⟨?_, by simp, ?_⟩
      · constructor
        · intro hc
          exact absurd hc (by decide)
        · intro hc
          exact absurd hc (by decide)
      · intro _ _ hc
        simp at hc
    | some out =>
      have hmem := hsome out hwd
      have hns : r.ComposeFile ≠ "-" ∧ r.ComposeFile ≠ "unknown" := by
        simp only [List.mem_cons, List.mem_singleton, List.not_mem_nil, or_false] at hmem
        rcases hmem with hf | hf
        · rw [hf]
          exact hjoin _ _ (by simp)
        · rw [hf]
          exact hjoin _ _ (by simp)
      refine ⟨?_, ?_, ?_⟩
      · constructor
        · intro hc
          exact absurd hc hns.1
        · intro hc
          exact absurd hc (by decide)
      · constructor
        · intro hc
          exact absurd hc hns.2
        · rintro ⟨_, hc⟩
          simp at hc
      · intro out2 _ hout
        have : out2 = out := by
          simpa using hout.symm
        subst this
        exact ⟨hfile out2 hlabels hwd, hns⟩

theorem compose_file_sentinels_witness :
    (inspectContainer dockerHost "aaa111").ComposeFile = "-" ∧
    (inspectContainer dockerHost "ccc333").ComposeFile = "unknown" ∧
    ((inspectContainer dockerHost "bbb222").ComposeFile =
        composeFilePath dockerHost (TrimSpace "/srv/shop\n") ∧
      (inspectContainer dockerHost "bbb222").ComposeFile ≠ "-" ∧
      (inspectContainer dockerHost "bbb222").ComposeFile ≠ "unknown") ∧
    composeFilePath dockerHost (TrimSpace "/srv/shop\n") = "/srv/shop/docker-compose.yaml" ∧
    ((inspectContainer composeMissingHost "ddd444").ComposeFile =
        composeFilePath composeMissingHost (TrimSpace "/srv/blog\n") ∧
      (inspectContainer composeMissingHost "ddd444").ComposeFile ≠ "-" ∧
      (inspectContainer composeMissingHost "ddd444").ComposeFile ≠ "unknown") :=
  ⟨(compose_file_sentinels dockerHost [] (inspectContainer dockerHost "aaa111")
      (fun dir name hname => unixJoin_compose_not_sentinel dir name hname) (by decide)).1.2
      (by decide),
    (compose_file_sentinels dockerHost [] (inspectContainer dockerHost "ccc333")
      (fun dir name hname => unixJoin_compose_not_sentinel dir name hname) (by decide)).2.1.2
      ⟨by decide, by decide⟩,
    (compose_file_sentinels dockerHost [] (inspectContainer dockerHost "bbb222")
      (fun dir name hname => unixJoin_compose_not_sentinel dir name hname) (by decide)).2.2
      "/srv/shop\n" (by decide) (by decide),
    by decide,
    (compose_file_sentinels composeMissingHost [] (inspectContainer composeMissingHost "ddd444")
      (fun dir name hname => unixJoin_compose_not_sentinel dir name hname) (by decide)).2.2
      "/srv/blog\n" (by decide) (by decide)⟩

/-- Claim C17 as stated fails: when the output of the accepted test command
begins with the phrase "configuration file " (the phrase stands at offset 0,
with no character before it), the path after the phrase is not returned: the
command-derived path is empty, because the code accepts the phrase only at an
offset greater than zero (webserver.go, the test on idx). -/
theorem nginx_phrase_at_offset_zero_gives_nothing :
    (nginxTestWorld "configuration file /etc/nginx/nginx.conf test is successful"
        true).CombinedOutput "nginx" ["-t"] =
      ("configuration file /etc/nginx/nginx.conf test is successful", true) ∧
    Index "configuration file /etc/nginx/nginx.conf test is successful"
      "configuration file /etc/nginx/nginx.conf " = 0 ∧
    getWebServerConfigFromCommand
        (nginxTestWorld "configuration file /etc/nginx/nginx.conf test is successful" true)
        "nginx" = "" ∧
    getWebServerConfigFromCommand
        (nginxTestWorld "configuration file /etc/nginx/nginx.conf test is successful" true)
        "nginx" ≠ "/etc/nginx/nginx.conf" := by
  decide

/-- Claim C17, amended: for Nginx, when the test command is accepted (it
succeeded, or its combined output contains "successful") and the first
occurrence of the phrase "configuration file " in that output is preceded by
at least one character (as in every line nginx prints, which starts with
"nginx: "), the command-derived config-file path is the text P that follows
the phrase, up to the first space, for a non-empty P without a space. -/
theorem nginx_config_from_phrase (w : World) (pre P post : String) (ok : Bool)
    (hpre : pre ≠ "") (hP : P ≠ "") (hspace : ∀ c ∈ P.data, c ≠ ' ')
    (hfirst : ∀ k < pre.data.length, "configuration file ".data.isPrefixOf
      ((pre ++ "configuration file " ++ P ++ " " ++ post).data.drop k) = false)
    (hcmd : w.CombinedOutput "nginx" ["-t"] =
      (pre ++ "configuration file " ++ P ++ " " ++ post, ok))
    (haccept : ok = true ∨
      Contains (pre ++ "configuration file " ++ P ++ " " ++ post) "successful" = true) :
    getWebServerConfigFromCommand w "nginx" = P := by
  rw [nginx_config_by_phrase_offset w pre P post ok hP hspace hfirst hcmd haccept, if_neg hpre]

theorem nginx_config_from_phrase_witness :
    getWebServerConfigFromCommand
        (nginxTestWorld "nginx: the configuration file /etc/nginx/nginx.conf syntax is ok" true)
        "nginx" = "/etc/nginx/nginx.conf" ∧
    getWebServerConfigFromCommand
        (nginxTestWorld
          ("nginx: [warn] conflicting server name\n" ++
            "nginx: configuration file /usr/local/etc/nginx/nginx.conf test is successful\n")
          false)
        "nginx" = "/usr/local/etc/nginx/nginx.conf" :=
  ⟨nginx_config_from_phrase _ "nginx: the " "/etc/nginx/nginx.conf" "syntax is ok" true
      (by decide) (by decide) (by decide) (by decide) (by decide) (by decide),
    nginx_config_from_phrase _ "nginx: [warn] conflicting server name\nnginx: "
      "/usr/local/etc/nginx/nginx.conf" "test is successful\n" false
      (by decide) (by decide) (by decide) (by decide) (by decide) (by decide)⟩

/-- An offset given by `indexL` is the one of the first occurrence. -/
theorem indexL_sound (sub : List Char) :
    ∀ (l : List Char) (i : Nat), indexL sub l i = -1 ∨
      ∃ a b, l = a ++ (sub ++ b) ∧ indexL sub l i = ((i + a.length : Nat) : Int) ∧
        ∀ k < a.length, sub.isPrefixOf (l.drop k) = false := by
  intro l
  induction l with
  | nil =>
    intro i
    by_cases hs : sub = []
    · exact Or.inr ⟨[], [], by simp [hs], by simp [indexL, hs], by simp⟩
    · exact Or.inl (by simp [indexL, hs])
  | cons c cs ih =>
    intro i
    cases hp : sub.isPrefixOf (c :: cs)
    · rcases ih (i + 1) with h | ⟨a, b, hl, hidx, hfirst⟩
      · exact Or.inl (by rw [indexL, hp]; simpa using h)
      · refine Or.inr ⟨c :: a, b, by rw [hl]; rfl, ?_, ?_⟩
        · rw [indexL, hp]
          simp only [Bool.false_eq_true, if_false, hidx, List.length_cons]
          congr 1
          omega
        · intro k hk
          cases k with
          | zero => exact hp
          | succ k => exact hfirst k (by simpa using hk)
    · obtain ⟨b, hb⟩ := List.isPrefixOf_iff_prefix.1 hp
      exact Or.inr ⟨[], b, by simpa using hb.symm, by simp [indexL, hp], by simp⟩

theorem no_char_before_first (q : Char) (a rest : List Char)
    (h : ∀ k < a.length, [q].isPrefixOf ((a ++ rest).drop k) = false) : ∀ c ∈ a, c ≠ q := by
  induction a with
  | nil => simp
  | cons x xs ih =>
    intro c hc
    rcases List.mem_cons.1 hc with rfl | hc
    · have h0 := h 0 (by simp)
      intro hcq
      subst hcq
      simp [List.isPrefixOf] at h0
    · exact ih (fun k hk => h (k + 1) (by simpa using hk)) c hc

/-- What the loop of `extractValueFromApacheOutput` returns is empty, or is the
value one of the lines holds for the key. -/
theorem extractValueFromLines_holds (key : String) (lines : List String) :
    extractValueFromLines key lines = "" ∨
      ∃ l ∈ lines, holdsValue key l (extractValueFromLines key lines) := by
  induction lines with
  | nil => exact Or.inl rfl
  | cons line rest ih =>
    have hrest : extractValueFromLines key rest = "" ∨
        ∃ l ∈ line :: rest, holdsValue key l (extractValueFromLines key rest) := by
      rcases ih with h | ⟨l, hl, hv⟩
      · exact Or.inl h
      · exact Or.inr ⟨l, List.mem_cons_of_mem _ hl, hv⟩
    rw [extractValueFromLines]
    simp only
    by_cases hc : Contains line key = true
    · by_cases hs : 0 < Index line (key ++ "=\"")
      · rcases indexL_sound (key ++ "=\"").data line.data 0 with hneg | ⟨a, b, hl, hidx, _⟩
        · have : Index line (key ++ "=\"") = -1 := hneg
          rw [this] at hs
          exact absurd hs (by decide)
        · have hstart : Index line (key ++ "=\"") = (a.length : Int) := by
            unfold Index
            rw [hidx, Nat.zero_add]
          have hklen : (key ++ "=\"").data.length = key.length + 2 := by
            rw [String.data_append, List.length_append]
            rfl
          have hslice : sliceFrom line (a.length + key.length + 2) = ⟨b⟩ := by
            unfold sliceFrom
            rw [hl, ← List.append_assoc, List.drop_left' (by
              rw [List.length_append, hklen, Nat.add_assoc])]
          have hs2 : (0 : Int) < (a.length : Int) := by
            rw [← hstart]
            exact hs
          simp only [hc, if_true, hstart, hs2, Int.toNat_ofNat, hslice]
          by_cases he : 0 < Index ⟨b⟩ "\""
          · simp only [he, if_true]
            refine Or.inr ⟨line, by simp, ?_⟩
            rcases indexL_sound "\"".data b 0 with hneg | ⟨v, post, hb, hidx2, hfirst2⟩
            · have : Index ⟨b⟩ "\"" = -1 := hneg
              rw [this] at he
              exact absurd he (by decide)
            · have hend : Index ⟨b⟩ "\"" = (v.length : Int) := by
                unfold Index
                rw [hidx2, Nat.zero_add]
              rw [hend] at he ⊢
              have hvlen : 0 < v.length := by exact_mod_cast he
              have hb' : b = v ++ ('"' :: post) := hb
              have hval : slice line (a.length + key.length + 2)
                  (a.length + key.length + 2 + (v.length : Int).toNat) = ⟨v⟩ := by
                have hd := congrArg String.data hslice
                unfold sliceFrom at hd
                simp only at hd
                unfold slice
                rw [hd, hb']
                simp
              rw [hval]
              refine ⟨?_, ?_, ⟨a⟩, ⟨post⟩, ?_⟩
              · intro hv
                have := congrArg String.data hv
                simp only at this
                rw [this] at hvlen
                exact absurd hvlen (by decide)
              · rw [hb'] at hfirst2
                exact no_char_before_first '"' v _ hfirst2
              · apply String.ext
                rw [hl, hb']
                simp [String.data_append]
          · simp only [he, if_false]
            exact hrest
      · simp only [hc, hs, if_true, if_false]
        exact hrest
    · simp only [hc, if_false]
      exact hrest

theorem extractValueFromLines_skip_absent (key : String) (before rest : List String)
    (h : ∀ l ∈ before, Index l (key ++ "=\"") < 0) :
    extractValueFromLines key (before ++ rest) = extractValueFromLines key rest := by
  induction before with
  | nil => rfl
  | cons l ls ih =>
    have hl : ¬ (0 < Index l (key ++ "=\"")) := by
      have := h l (by simp)
      omega
    rw [List.cons_append, extractValueFromLines]
    simp only [hl, if_false, ite_self]
    exact ih (fun m hm => h m (by simp [hm]))

theorem holdsValue_index (key line value : String) (h : holdsValue key line value) :
    0 ≤ Index line (key ++ "=\"") := by
  obtain ⟨_, _, pre, post, hl⟩ := h
  have hd : line.data = pre.data ++ ((key ++ "=\"").data ++ (value.data ++ '"' :: post.data)) := by
    rw [hl]
    simp [String.data_append]
  unfold Index
  rw [hd]
  have := indexL_lower (key ++ "=\"").data pre.data
    ((key ++ "=\"").data ++ (value.data ++ '"' :: post.data)) 0 (isPrefixOf_append _ _)
  simpa using this

/-- The loop of `getWebServerConfigFromCommand` for Apache passes over the
executables whose `-V` fails or names no config file. -/
theorem apacheConfigFromCommand_first (w : World) (skipped rest : List String)
    (execName out : String)
    (hskip : ∀ n ∈ skipped, w.Output n ["-V"] = none ∨
      ∃ o, w.Output n ["-V"] = some o ∧
        extractValueFromApacheOutput o "SERVER_CONFIG_FILE" = "")
    (hout : w.Output execName ["-V"] = some out)
    (hF : extractValueFromApacheOutput out "SERVER_CONFIG_FILE" ≠ "") :
    apacheConfigFromCommand w (skipped ++ execName :: rest) =
      if w.IsAbs (extractValueFromApacheOutput out "SERVER_CONFIG_FILE") = false ∧
          extractValueFromApacheOutput out "HTTPD_ROOT" ≠ "" then
        w.Join (extractValueFromApacheOutput out "HTTPD_ROOT")
          (extractValueFromApacheOutput out "SERVER_CONFIG_FILE")
      else extractValueFromApacheOutput out "SERVER_CONFIG_FILE" := by
  induction skipped with
  | nil =>
    rw [List.nil_append, apacheConfigFromCommand, hout]
    simp only [bne_iff_ne, ne_eq, hF, not_false_eq_true, if_true]
    cases hab : w.IsAbs (extractValueFromApacheOutput out "SERVER_CONFIG_FILE") <;>
      by_cases hR : extractValueFromApacheOutput out "HTTPD_ROOT" = "" <;> simp [hR]
  | cons n ns ih =>
    have ih' := ih (fun m hm => hskip m (by simp [hm]))
    rw [List.cons_append, apacheConfigFromCommand]
    rcases hskip n (by simp) with hn | ⟨o, hn, ho⟩
    · rw [hn]
      exact ih'
    · rw [hn]
      simp only [ho, bne_self_eq_false, Bool.false_eq_true, if_false]
      exact ih'

/-- Claim C18 as stated fails: a version output whose line starts with
SERVER_CONFIG_FILE="/etc/httpd/conf/httpd.conf" does hold a line with KEY="F",
yet the value extracted for the key is empty, not F, and the command-derived
path of Apache is empty: the code accepts the key only at an offset greater
than zero in its line (webserver.go, the test on start). -/
theorem apache_key_at_line_start_gives_nothing :
    "SERVER_CONFIG_FILE=\"/etc/httpd/conf/httpd.conf\"" ∈
      Split "SERVER_CONFIG_FILE=\"/etc/httpd/conf/httpd.conf\"\n" '\n' ∧
    extractValueFromApacheOutput "SERVER_CONFIG_FILE=\"/etc/httpd/conf/httpd.conf\"\n"
      "SERVER_CONFIG_FILE" = "" ∧
    extractValueFromApacheOutput "SERVER_CONFIG_FILE=\"/etc/httpd/conf/httpd.conf\"\n"
      "SERVER_CONFIG_FILE" ≠ "/etc/httpd/conf/httpd.conf" ∧
    getWebServerConfigFromCommand
      (apacheVersionWorld "SERVER_CONFIG_FILE=\"/etc/httpd/conf/httpd.conf\"\n") "apache" =
      "" := by
  decide

/-- Claim C18, amended: for Apache, (1) when the first line of the version
output that holds the text KEY=" holds KEY="F" with a non-empty F without a
double quote, and the key is preceded by at least one character on that line
(as in the defines httpd prints, " -D KEY=..."), the value extracted for KEY is
F; (2) for the first executable of apache2ctl, httpd, apache2 whose "-V"
succeeds with a non-empty value F of SERVER_CONFIG_FILE, the command-derived
path is Join(R, F) when F is not absolute and the value R of HTTPD_ROOT is
non-empty, and F itself otherwise; (3) when no line of the output holds the key
followed by a non-empty quoted value, the extracted value is empty. -/
theorem apache_config_from_version_output (w : World) :
    (∀ (key pre F post : String) (before after : List String),
      pre ≠ "" → F ≠ "" → (∀ c ∈ F.data, c ≠ '"') →
      (∀ l ∈ before ++ (pre ++ key ++ "=\"" ++ F ++ "\"" ++ post) :: after,
        ∀ c ∈ l.data, c ≠ '\n') →
      (∀ l ∈ before, Index l (key ++ "=\"") < 0) →
      (∀ k < pre.data.length, (key ++ "=\"").data.isPrefixOf
        ((pre ++ key ++ "=\"" ++ F ++ "\"" ++ post).data.drop k) = false) →
      extractValueFromApacheOutput
        (joinLines (before ++ (pre ++ key ++ "=\"" ++ F ++ "\"" ++ post) :: after)) key = F) ∧
    (∀ (skipped rest : List String) (execName out : String),
      skipped ++ execName :: rest = ["apache2ctl", "httpd", "apache2"] →
      (∀ n ∈ skipped, w.Output n ["-V"] = none ∨
        ∃ o, w.Output n ["-V"] = some o ∧
          extractValueFromApacheOutput o "SERVER_CONFIG_FILE" = "") →
      w.Output execName ["-V"] = some out →
      extractValueFromApacheOutput out "SERVER_CONFIG_FILE" ≠ "" →
      getWebServerConfigFromCommand w "apache" =
        if w.IsAbs (extractValueFromApacheOutput out "SERVER_CONFIG_FILE") = false ∧
            extractValueFromApacheOutput out "HTTPD_ROOT" ≠ "" then
          w.Join (extractValueFromApacheOutput out "HTTPD_ROOT")
            (extractValueFromApacheOutput out "SERVER_CONFIG_FILE")
        else extractValueFromApacheOutput out "SERVER_CONFIG_FILE") ∧
    (∀ (out key : String), (∀ l ∈ Split out '\n', ∀ v, ¬ holdsValue key l v) →
      extractValueFromApacheOutput out key = "") := by
  refine ⟨?_, ?_, ?_⟩
  · intro key pre F post before after hpre hF hquote hlines hbefore hfirst
    have hline := apache_value_by_key_offset key pre F post [] after hF hquote
      (fun l hl => hlines l (List.mem_append_right _ (by simpa using hl))) (by simp) hfirst
    rw [if_neg hpre] at hline
    unfold extractValueFromApacheOutput at hline ⊢
    rw [List.nil_append, split_joinLines _ (by simp)
      (fun l hl => hlines l (List.mem_append_right _ hl))] at hline
    rw [split_joinLines _ (by simp) hlines,
      extractValueFromLines_skip_absent key before _ hbefore]
    exact hline
  · intro skipped rest execName out hlist hskip hout hF
    have h := apacheConfigFromCommand_first w skipped rest execName out hskip hout hF
    rw [hlist] at h
    unfold getWebServerConfigFromCommand
    rw [if_neg (by decide), if_pos rfl]
    exact h
  · intro out key hnone
    unfold extractValueFromApacheOutput
    rcases extractValueFromLines_holds key (Split out '\n') with h | ⟨l, hl, hv⟩
    · exact h
    · exact absurd hv (hnone l hl _)

theorem apache_config_from_version_output_witness :
    extractValueFromApacheOutput
        ("Server version: Apache/2.4.57\n -D HTTPD_ROOT=\"/etc/apache2\"\n" ++
          " -D SERVER_CONFIG_FILE=\"apache2.conf\"\n") "SERVER_CONFIG_FILE" = "apache2.conf" ∧
    extractValueFromApacheOutput
        ("Server version: Apache/2.4.57\n -D HTTPD_ROOT=\"/etc/apache2\"\n" ++
          " -D SERVER_CONFIG_FILE=\"apache2.conf\"\n") "HTTPD_ROOT" = "/etc/apache2" ∧
    getWebServerConfigFromCommand apacheHost "apache" = "/etc/apache2/apache2.conf" ∧
    getWebServerConfigFromCommand httpdHost "apache" = "/etc/httpd/conf/httpd.conf" ∧
    extractValueFromApacheOutput "Server version: Apache/2.4.57\nServer built: 2023-10-19\n"
      "SERVER_CONFIG_FILE" = "" :=
  ⟨(apache_config_from_version_output bareWorld).1 "SERVER_CONFIG_FILE" " -D " "apache2.conf" ""
      ["Server version: Apache/2.4.57", " -D HTTPD_ROOT=\"/etc/apache2\""] [""]
      (by decide) (by decide) (by decide) (by decide) (by decide) (by decide),
    (apache_config_from_version_output bareWorld).1 "HTTPD_ROOT" " -D " "/etc/apache2" ""
      ["Server version: Apache/2.4.57"] [" -D SERVER_CONFIG_FILE=\"apache2.conf\"", ""]
      (by decide) (by decide) (by decide) (by decide) (by decide) (by decide),
    ((apache_config_from_version_output apacheHost).2.1 [] ["httpd", "apache2"] "apache2ctl"
      ("Server version: Apache/2.4.57\n -D HTTPD_ROOT=\"/etc/apache2\"\n" ++
        " -D SERVER_CONFIG_FILE=\"apache2.conf\"\n")
      (by decide) (by simp) (by decide) (by decide)).trans (by decide),
    ((apache_config_from_version_output httpdHost).2.1 ["apache2ctl"] ["apache2"] "httpd"
      ("Server version: Apache/2.4.57\n -D HTTPD_ROOT=\"/etc/httpd\"\n" ++
        " -D SERVER_CONFIG_FILE=\"/etc/httpd/conf/httpd.conf\"\n")
      (by decide) (fun n hn => Or.inl (by
        rw [List.mem_singleton.1 hn]
        decide)) (by decide) (by decide)).trans (by decide),
    (apache_config_from_version_output bareWorld).2.2
      "Server version: Apache/2.4.57\nServer built: 2023-10-19\n" "SERVER_CONFIG_FILE"
      (fun l hl v hv => by
        have hidx := holdsValue_index _ _ _ hv
        have hcases : l = "Server version: Apache/2.4.57" ∨ l = "Server built: 2023-10-19" ∨
            l = "" := by
          have : Split "Server version: Apache/2.4.57\nServer built: 2023-10-19\n" '\n' =
              ["Server version: Apache/2.4.57", "Server built: 2023-10-19", ""] := by decide
          rw [this] at hl
          simpa using hl
        rcases hcases with rfl | rfl | rfl <;> exact absurd hidx (by decide))⟩

end Discovery
